import Mathlib

/-!
Verification of the signature-to-wrapper code generator (scripts/gen.py).

The development shallowly embeds the data model and the operations of the
generator: the verbatim and reduced parse trees (lark trees with source
column spans), the span emitter (class StringEmit together with
emit_string), the signature projections (create_map_sig, get_mapsig_key,
rewrite_sig), and the code-synthesis and registration functions
(get_reference_param, generate_aten_out, get_handling_function,
requires_registration, generate_registrations, check_overrides,
extract_functions, is_blacklisted_fn).

Since the lark LALR machinery is an external library, parse trees are not
produced by running a parser here; instead a builder constructs, from an
abstract signature and an explicit whitespace layout, exactly the
token-and-span tree that the deterministic grammar assigns to the rendered
source string.  Theorems about parses of well-formed signatures quantify
over the abstract signature and the layout.
-/

namespace Gen

/- ## Basic string helpers -/

/-- Python slice s[a:b] on a string, with 0-based character indices. -/
def pySlice (s : String) (a b : Nat) : String :=
  ⟨(s.data.drop a).take (b - a)⟩

/-- Characters allowed in a lark TNAME token. -/
def tnameChar (c : Char) : Bool :=
  (('a' ≤ c && c ≤ 'z') || ('A' ≤ c && c ≤ 'Z') || ('0' ≤ c && c ≤ '9')
    || c = '_' || c = ':')

/-- Characters the regular-expression class for word characters accepts. -/
def wordChar (c : Char) : Bool :=
  (('a' ≤ c && c ≤ 'z') || ('A' ≤ c && c ≤ 'Z') || ('0' ≤ c && c ≤ '9')
    || c = '_')

/-- All characters of the string are spaces. -/
def allSpaces (s : String) : Bool :=
  s.data.all (fun c => c = ' ')

/-- Whitespace characters, as matched by the ignored WS terminal. -/
def wsChar (c : Char) : Bool :=
  c = ' ' || c = '\t' || c = '\n' || c = '\r' || c = '\x0b' || c = '\x0c'

/-- All characters of the string are whitespace. -/
def allWs (s : String) : Bool :=
  s.data.all wsChar

/-- Join a list of strings with a separator. -/
def joinSep (sep : String) : List String → String
  | [] => ""
  | [x] => x
  | x :: y :: r => x ++ sep ++ joinSep sep (y :: r)

/-- Concatenation of a list of strings. -/
def strConcat : List String → String
  | [] => ""
  | x :: r => x ++ strConcat r

/- ## Tokens, parse trees and the span emitter -/

/-- A lark token: terminal type, text, and 1-based column span
(column inclusive, end column exclusive). -/
structure Tok where
  tt : String
  v : String
  colm : Nat
  ecol : Nat
deriving DecidableEq

mutual

/-- A lark parse tree: tokens are leaves, rules are inner nodes tagged
with the rule name. -/
inductive PTree where
  | tok (tk : Tok) : PTree
  | node (data : String) (kids : Kids) : PTree

/-- Children list of a parse-tree node. -/
inductive Kids where
  | nil : Kids
  | cons (hd : PTree) (tl : Kids) : Kids

end

mutual

def PTree.beq : PTree → PTree → Bool
  | PTree.tok a, PTree.tok b => a = b
  | PTree.node d1 k1, PTree.node d2 k2 => d1 = d2 && Kids.beq k1 k2
  | _, _ => false

def Kids.beq : Kids → Kids → Bool
  | Kids.nil, Kids.nil => true
  | Kids.cons h1 t1, Kids.cons h2 t2 => PTree.beq h1 h2 && Kids.beq t1 t2
  | _, _ => false

end

def Kids.toList : Kids → List PTree
  | Kids.nil => []
  | Kids.cons h t => h :: Kids.toList t

def Kids.ofList : List PTree → Kids
  | [] => Kids.nil
  | h :: t => Kids.cons h (Kids.ofList t)

mutual

/-- first_match: 0-based start column of the leftmost token of a tree. -/
def firstMatch : PTree → Int
  | PTree.tok tk => (tk.colm : Int) - 1
  | PTree.node _ ks => firstMatchK ks

def firstMatchK : Kids → Int
  | Kids.nil => 0
  | Kids.cons h _ => firstMatch h

end

mutual

/-- last_match: 0-based end column of the rightmost token of a tree. -/
def lastMatch : PTree → Int
  | PTree.tok tk => (tk.ecol : Int) - 1
  | PTree.node _ ks => lastMatchK ks

def lastMatchK : Kids → Int
  | Kids.nil => 0
  | Kids.cons h Kids.nil => lastMatch h
  | Kids.cons _ (Kids.cons h t) => lastMatchK (Kids.cons h t)

end

mutual

/-- All tokens of a tree, in source order (for_every_token order). -/
def tokensOf : PTree → List Tok
  | PTree.tok tk => [tk]
  | PTree.node _ ks => tokensK ks

def tokensK : Kids → List Tok
  | Kids.nil => []
  | Kids.cons h t => tokensOf h ++ tokensK t

end

/-- State of the span emitter (class StringEmit): the reference source
text, the accumulated output, and the current 0-based source cursor,
with -1 meaning that no source position is being tracked. -/
structure StringEmit where
  sref : String
  sval : String
  pos : Int

/-- StringEmit.advance: copy the gap from the cursor to the token start,
then the token text, and move the cursor to the token end. -/
def StringEmit.advance (e : StringEmit) (tk : Tok) : StringEmit :=
  let start : Int := (tk.colm : Int) - 1
  let stop : Int := (tk.ecol : Int) - 1
  let pos : Int := if 0 ≤ e.pos then e.pos else start
  let sval := if pos < start then e.sval ++ pySlice e.sref pos.toNat start.toNat
              else e.sval
  ⟨e.sref, sval ++ tk.v, stop⟩

/-- StringEmit.skip: move the cursor past a subtree without copying. -/
def StringEmit.skip (e : StringEmit) (t : PTree) : StringEmit :=
  ⟨e.sref, e.sval, if 0 ≤ e.pos then lastMatch t else -1⟩

/-- StringEmit.append: splice in synthesized text and stop tracking a
source position. -/
def StringEmit.append (e : StringEmit) (s : String) : StringEmit :=
  ⟨e.sref, e.sval ++ s, -1⟩

/-- Fold advance over a token list (for_every_token with do_emit). -/
def advanceAll (ts : List Tok) (e : StringEmit) : StringEmit :=
  ts.foldl StringEmit.advance e

mutual

/-- emit_string: walk a tree under a per-node decision function.  A
positive decision emits the whole subtree as one unit, zero recurses
(copying leaf tokens verbatim), a negative decision skips the subtree. -/
def emitString (fn : PTree → Int) : PTree → StringEmit → StringEmit
  | PTree.tok tk, e =>
      let st := fn (PTree.tok tk)
      if 0 < st then advanceAll (tokensOf (PTree.tok tk)) e
      else if st = 0 then e.advance tk
      else e.skip (PTree.tok tk)
  | PTree.node d ks, e =>
      let st := fn (PTree.node d ks)
      if 0 < st then advanceAll (tokensOf (PTree.node d ks)) e
      else if st = 0 then emitKids fn ks e
      else e.skip (PTree.node d ks)

def emitKids (fn : PTree → Int) : Kids → StringEmit → StringEmit
  | Kids.nil, e => e
  | Kids.cons h t, e => emitKids fn t (emitString fn h e)

end

/-- The identity decision function (the default emit_fn of rewrite_sig). -/
def defaultEmitFn : PTree → Int := fun _ => 0

/-- rewrite_sig: re-emit a tree against its original source text. -/
def rewrite_sig (tree : PTree) (orig_sig : String) (fn : PTree → Int) : String :=
  (emitString fn tree ⟨orig_sig, "", -1⟩).sval

/-- typed_child: the n-th child of a tree node. -/
def typed_child (t : PTree) (n : Nat) : PTree :=
  match t with
  | PTree.tok tk => PTree.tok tk
  | PTree.node _ ks => (Kids.toList ks).getD n (PTree.node "" Kids.nil)

/-- The decision function local to create_map_sig: skip const and
reference or pointer marker tokens, and skip parameter names and
default values. -/
def mapSigEmitFn : PTree → Int
  | PTree.tok tk => if tk.tt = "CONST" || tk.tt = "REF" || tk.tt = "PTR" then -1 else 0
  | PTree.node d _ => if d = "param_name" || d = "param_defval" then -1 else 0

/-- create_map_sig: emit the function name, the qualifier-free parameter
types, and the qualifier-free return type. -/
def create_map_sig (tree : PTree) (orig_sig : String) : String :=
  let e : StringEmit := ⟨orig_sig, "", -1⟩
  let e := emitString mapSigEmitFn (typed_child tree 1) e
  let e := e.append "("
  let e := emitString mapSigEmitFn (typed_child tree 3) e
  let e := e.append ") -> "
  let e := emitString mapSigEmitFn (typed_child tree 0) e
  e.sval

/-- get_mapsig_key: canonicalize a map signature by removing every
space character. -/
def get_mapsig_key (mapsig : String) : String :=
  ⟨mapsig.data.filter (fun c => !(c = ' '))⟩

/- ## The abstract signature grammar

A declaration is a return type, a function name and a nonempty
comma-separated parameter list; a type is an optional const qualifier, a
core type (plain name or one-level template instantiation) and an
optional reference or pointer marker; a parameter is a type, a name and
an optional default literal.  This mirrors the grammar _GRAMMAR. -/

inductive RefKind where
  | amp : RefKind
  | star : RefKind
deriving DecidableEq

mutual

inductive CoreT where
  | plain (name : String) : CoreT
  | tmpl (name : String) (args : TyList) : CoreT

inductive TyX where
  | mk (isConst : Bool) (core : CoreT) (ref : Option RefKind) : TyX

inductive TyList where
  | single (t : TyX) : TyList
  | cons (t : TyX) (rest : TyList) : TyList

end

structure ParamX where
  ty : TyX
  pname : String
  defv : Option String

inductive ParamsX where
  | single (p : ParamX) : ParamsX
  | cons (p : ParamX) (rest : ParamsX) : ParamsX

structure SigX where
  ret : TyX
  fname : String
  params : ParamsX

/- ## Building the parse trees of a rendered signature

A layout is the list of whitespace gaps that stand before the successive
tokens of the rendered source text.  The builder produces, from a
signature and a layout, both the source string and the verbatim tree
(every token retained with its 1-based column span) that the
deterministic grammar assigns to it; the reduced tree is obtained by
filtering the anonymous punctuation tokens, exactly as the default lark
tree does. -/

structure BSt where
  pos : Nat
  gaps : List String
  out : String

def takeGap : BSt → String × BSt
  | ⟨p, [], o⟩ => ("", ⟨p, [], o⟩)
  | ⟨p, g :: gs, o⟩ => (g, ⟨p, gs, o⟩)

/-- Place the next token after the next layout gap, recording its
1-based column span. -/
def pushTok (tt v : String) (s : BSt) : Tok × BSt :=
  let gs := takeGap s
  let start := gs.2.pos + gs.1.length
  (⟨tt, v, start + 1, start + v.length + 1⟩,
   ⟨start + v.length, gs.2.gaps, gs.2.out ++ gs.1 ++ v⟩)

/-- Terminal name assigned to a default-value literal: the keyword and
empty-aggregate literals are anonymous (filtered from the reduced
tree), the numeric and quoted ones are named terminals. -/
def litType (v : String) : String :=
  if v = "true" || v = "false" || v = "\x7b\x7d" then "ANONLIT"
  else if v.data.head? = some '\"' then "ESCAPED_STRING"
  else "NUMBER"

mutual

def buildCore : CoreT → BSt → PTree × BSt
  | CoreT.plain n, s =>
      let r := pushTok "TNAME" n s
      (PTree.node "core_type" (Kids.cons (PTree.tok r.1) Kids.nil), r.2)
  | CoreT.tmpl n args, s =>
      let tn := pushTok "TNAME" n s
      let lt := pushTok "LT" "<" tn.2
      let tl := buildTyList args lt.2
      let gt := pushTok "GT" ">" tl.2
      (PTree.node "core_type" (Kids.cons (PTree.node "template"
        (Kids.cons (PTree.tok tn.1) (Kids.cons (PTree.tok lt.1)
          (Kids.cons tl.1 (Kids.cons (PTree.tok gt.1) Kids.nil))))) Kids.nil),
       gt.2)

def buildTy : TyX → BSt → PTree × BSt
  | TyX.mk c core r, s =>
      let k1 : List PTree × BSt :=
        if c then
          let t := pushTok "CONST" "const" s
          ([PTree.tok t.1], t.2)
        else ([], s)
      let ct := buildCore core k1.2
      let k3 : List PTree × BSt :=
        match r with
        | none => ([], ct.2)
        | some RefKind.amp =>
            let t := pushTok "REF" "&" ct.2
            ([PTree.node "refspec" (Kids.cons (PTree.tok t.1) Kids.nil)], t.2)
        | some RefKind.star =>
            let t := pushTok "PTR" "*" ct.2
            ([PTree.node "refspec" (Kids.cons (PTree.tok t.1) Kids.nil)], t.2)
      (PTree.node "type" (Kids.ofList (k1.1 ++ [ct.1] ++ k3.1)), k3.2)

def buildTyList : TyList → BSt → PTree × BSt
  | TyList.single t, s =>
      let r := buildTy t s
      (PTree.node "typelist" (Kids.cons r.1 Kids.nil), r.2)
  | TyList.cons t rest, s =>
      let r := buildTy t s
      let cm := pushTok "COMMA" "," r.2
      let rs := buildTyList rest cm.2
      (PTree.node "typelist" (Kids.cons r.1 (Kids.cons (PTree.tok cm.1)
        (Kids.cons rs.1 Kids.nil))), rs.2)

end

def buildParam (p : ParamX) (s : BSt) : PTree × BSt :=
  let ty := buildTy p.ty s
  let nm := pushTok "CNAME" p.pname ty.2
  let pn := PTree.node "param_name" (Kids.cons (PTree.tok nm.1) Kids.nil)
  match p.defv with
  | none => (PTree.node "param" (Kids.cons ty.1 (Kids.cons pn Kids.nil)), nm.2)
  | some v =>
      let eqt := pushTok "EQ" "=" nm.2
      let lv := pushTok (litType v) v eqt.2
      let dv := PTree.node "param_defval" (Kids.cons (PTree.tok eqt.1)
        (Kids.cons (PTree.node "init_value" (Kids.cons (PTree.tok lv.1) Kids.nil))
          Kids.nil))
      (PTree.node "param" (Kids.cons ty.1 (Kids.cons pn (Kids.cons dv Kids.nil))),
       lv.2)

def buildParams : ParamsX → BSt → PTree × BSt
  | ParamsX.single p, s =>
      let r := buildParam p s
      (PTree.node "params" (Kids.cons r.1 Kids.nil), r.2)
  | ParamsX.cons p rest, s =>
      let r := buildParam p s
      let cm := pushTok "COMMA" "," r.2
      let rs := buildParams rest cm.2
      (PTree.node "params" (Kids.cons r.1 (Kids.cons (PTree.tok cm.1)
        (Kids.cons rs.1 Kids.nil))), rs.2)

def buildSig (sg : SigX) (s : BSt) : PTree × BSt :=
  let rt := buildTy sg.ret s
  let fn := pushTok "CNAME" sg.fname rt.2
  let fnn := PTree.node "fnname" (Kids.cons (PTree.tok fn.1) Kids.nil)
  let lp := pushTok "LPAR" "(" fn.2
  let ps := buildParams sg.params lp.2
  let rp := pushTok "RPAR" ")" ps.2
  (PTree.node "start" (Kids.cons rt.1 (Kids.cons fnn (Kids.cons (PTree.tok lp.1)
    (Kids.cons ps.1 (Kids.cons (PTree.tok rp.1) Kids.nil))))), rp.2)

def initBSt (layout : List String) : BSt := ⟨0, layout, ""⟩

/-- The source text rendered from a signature and a layout. -/
def renderSig (sg : SigX) (layout : List String) : String :=
  (buildSig sg (initBSt layout)).2.out

/-- The verbatim parse tree of the rendered source text. -/
def vtreeOf (sg : SigX) (layout : List String) : PTree :=
  (buildSig sg (initBSt layout)).1

/-- Anonymous tokens, filtered from the reduced tree. -/
def anonTok (tk : Tok) : Bool :=
  tk.tt = "LPAR" || tk.tt = "RPAR" || tk.tt = "COMMA" || tk.tt = "LT"
    || tk.tt = "GT" || tk.tt = "EQ" || tk.tt = "ANONLIT"

mutual

def reduceTree : PTree → PTree
  | PTree.tok tk => PTree.tok tk
  | PTree.node d ks => PTree.node d (reduceKids ks)

def reduceKids : Kids → Kids
  | Kids.nil => Kids.nil
  | Kids.cons (PTree.tok tk) t =>
      if anonTok tk then reduceKids t
      else Kids.cons (PTree.tok tk) (reduceKids t)
  | Kids.cons (PTree.node d ks) t =>
      Kids.cons (PTree.node d (reduceKids ks)) (reduceKids t)

end

/-- The reduced parse tree of the rendered source text. -/
def rtreeOf (sg : SigX) (layout : List String) : PTree :=
  reduceTree (vtreeOf sg layout)

/- ## Pure renderings of the canonical map key -/

mutual

def coreKey : CoreT → String
  | CoreT.plain n => n
  | CoreT.tmpl n args => n ++ "<" ++ tyListKey args ++ ">"

def tyKey : TyX → String
  | TyX.mk _ core _ => coreKey core

def tyListKey : TyList → String
  | TyList.single t => tyKey t
  | TyList.cons t r => tyKey t ++ "," ++ tyListKey r

end

def paramsKey : ParamsX → String
  | ParamsX.single p => tyKey p.ty
  | ParamsX.cons p r => tyKey p.ty ++ "," ++ paramsKey r

/-- The canonical map key of a signature, computed structurally: the
function name, the qualifier-free parameter core types, and the
qualifier-free return core type, with no whitespace. -/
def mapKeyPure (sg : SigX) : String :=
  sg.fname ++ "(" ++ paramsKey sg.params ++ ")->" ++ tyKey sg.ret

/- ## Well-formedness -/

/-- A valid TNAME token text. -/
def tnameOK (s : String) : Bool :=
  !(s = "") && s.data.all tnameChar

/-- A valid CNAME token text. -/
def cnameOK (s : String) : Bool :=
  match s.data with
  | [] => false
  | c :: r =>
      (('a' ≤ c && c ≤ 'z') || ('A' ≤ c && c ≤ 'Z') || c = '_')
        && r.all wordChar

mutual

def coreNamesOK : CoreT → Bool
  | CoreT.plain n => tnameOK n
  | CoreT.tmpl n args => tnameOK n && tyListNamesOK args

def tyNamesOK : TyX → Bool
  | TyX.mk _ core _ => coreNamesOK core

def tyListNamesOK : TyList → Bool
  | TyList.single t => tyNamesOK t
  | TyList.cons t r => tyNamesOK t && tyListNamesOK r

end

def paramNamesOK (p : ParamX) : Bool :=
  tyNamesOK p.ty && cnameOK p.pname
    && (match p.defv with
        | none => true
        | some v => !(v = ""))

def paramsNamesOK : ParamsX → Bool
  | ParamsX.single p => paramNamesOK p
  | ParamsX.cons p r => paramNamesOK p && paramsNamesOK r

/-- All tokens of the signature are lexically valid. -/
def sigNamesOK (sg : SigX) : Bool :=
  tyNamesOK sg.ret && cnameOK sg.fname && paramsNamesOK sg.params

/-- Consecutive tokens that would lex as one token must be separated by
a nonempty gap. -/
def sepOK : List Tok → Bool
  | [] => true
  | [_] => true
  | a :: b :: r =>
      (if b.colm = a.ecol then
        !(match a.v.data.getLast?, b.v.data.head? with
          | some x, some y => tnameChar x && tnameChar y
          | _, _ => false)
       else true) && sepOK (b :: r)

/-- Every gap of the layout is whitespace. -/
def wsLayout (layout : List String) : Bool :=
  layout.all allWs

/-- Every gap of the layout is made of plain spaces. -/
def spaceLayout (layout : List String) : Bool :=
  layout.all allSpaces

/-- A layout whose rendering the parser maps back to the built trees:
no gap before the first token, whitespace gaps, and mergeable adjacent
tokens separated. -/
def layoutOK (sg : SigX) (layout : List String) : Bool :=
  layout.headD "" = "" && wsLayout layout && sepOK (tokensOf (vtreeOf sg layout))

/- ## Tiles: tokens laid out over a source string

Tiles src p gs ts q states that the tokens ts, preceded by the gaps gs,
tile the source character range from p to q: each token is preceded by
its gap, spans match the source text, and spans are consecutive. -/

inductive Tiles (src : List Char) : Nat → List String → List Tok → Nat → Prop
  | nil (p : Nat) : Tiles src p [] [] p
  | cons (p : Nat) (g : String) (tk : Tok) (gs : List String) (ts : List Tok)
      (q : Nat) :
      tk.colm = p + g.length + 1 →
      tk.ecol = tk.colm + tk.v.length →
      (src.drop p).take (g.length + tk.v.length) = g.data ++ tk.v.data →
      Tiles src (p + g.length + tk.v.length) gs ts q →
      Tiles src p (g :: gs) (tk :: ts) q

/- ## Builder chunks: each built component tiles its output range -/

/-- From builder state s to builder state t, the tokens ts were laid
out after gaps taken from the gap supply of s, tiling the output text
added between the two states. -/
def TiledChunk (s t : BSt) (ts : List Tok) : Prop :=
  (∃ gs, Tiles t.out.data s.pos (s.gaps.headD "" :: gs) ts t.pos)
  ∧ t.pos = t.out.data.length
  ∧ (∃ ext, t.out.data = s.out.data ++ ext)

/- ## Actions: the flattened behavior of the map-key emission -/

/-- The sequence of emitter operations the map-key decision function
performs on a subtree: advance on kept tokens, cursor repositioning on
skipped subtrees. -/
inductive Act where
  | adv (tk : Tok) : Act
  | skipTo (m : Int) : Act

def runActs : List Act → StringEmit → StringEmit
  | [], e => e
  | Act.adv tk :: r, e => runActs r (e.advance tk)
  | Act.skipTo m :: r, e =>
      runActs r ⟨e.sref, e.sval, if 0 ≤ e.pos then m else -1⟩

/-- The token text issued by a list of actions. -/
def advVals : List Act → List Char
  | [] => []
  | Act.adv tk :: r => tk.v.data ++ advVals r
  | Act.skipTo _ :: r => advVals r

mutual

def mapActs : PTree → List Act
  | PTree.tok tk =>
      if mapSigEmitFn (PTree.tok tk) = 0 then [Act.adv tk]
      else [Act.skipTo (lastMatch (PTree.tok tk))]
  | PTree.node d ks =>
      if mapSigEmitFn (PTree.node d ks) = 0 then mapActsK ks
      else [Act.skipTo (lastMatch (PTree.node d ks))]

def mapActsK : Kids → List Act
  | Kids.nil => []
  | Kids.cons h t => mapActs h ++ mapActsK t

end

/- ## Stripping spaces from the action output -/

def stripL (l : List Char) : List Char := l.filter (fun c => !(c = ' '))

/- ## Action tiles -/

/-- The actions acts span the source range from p to q: every advanced
token sits after an all-space gap and carries space-free text; every
skip moves the cursor forward within the range. -/
inductive ActTiles (src : List Char) : Nat → List Act → Nat → Prop
  | nil (p : Nat) : ActTiles src p [] p
  | adv (p : Nat) (g : String) (tk : Tok) (acts : List Act) (q : Nat) :
      allSpaces g = true →
      tk.v.data.all (fun c => !(c = ' ')) = true →
      tk.colm = p + g.length + 1 →
      tk.ecol = tk.colm + tk.v.length →
      (src.drop p).take (g.length + tk.v.length) = g.data ++ tk.v.data →
      ActTiles src (p + g.length + tk.v.length) acts q →
      ActTiles src p (Act.adv tk :: acts) q
  | skip (p m : Nat) (acts : List Act) (q : Nat) :
      p ≤ m →
      ActTiles src m acts q →
      ActTiles src p (Act.skipTo (m : Int) :: acts) q

/-- From builder state s to builder state t, the actions acts tile the
added output, the position invariant holds, the output only grows, and
the remaining gap supply is still all-space. -/
def ActChunk (s t : BSt) (acts : List Act) : Prop :=
  ActTiles t.out.data s.pos acts t.pos
  ∧ t.pos = t.out.data.length
  ∧ (∃ ext, t.out.data = s.out.data ++ ext)
  ∧ spaceLayout t.gaps = true

/-- Builder state after the return type of a signature. -/
def stR (sg : SigX) (layout : List String) : BSt :=
  (buildTy sg.ret (initBSt layout)).2

/-- Builder state after the function name. -/
def stF (sg : SigX) (layout : List String) : BSt :=
  (pushTok "CNAME" sg.fname (stR sg layout)).2

/-- Builder state after the opening parenthesis. -/
def stL (sg : SigX) (layout : List String) : BSt :=
  (pushTok "LPAR" "(" (stF sg layout)).2

/-- Builder state after the parameter list. -/
def stP (sg : SigX) (layout : List String) : BSt :=
  (buildParams sg.params (stL sg layout)).2

/- ## Core-type surgery for the variance half of the key property -/

def TyX.core : TyX → CoreT
  | TyX.mk _ c _ => c

def TyX.withCore : TyX → CoreT → TyX
  | TyX.mk q _ r, c => TyX.mk q c r

def CoreT.headName : CoreT → String
  | CoreT.plain n => n
  | CoreT.tmpl n _ => n

/-- The part of the core-type key after the head name. -/
def tailKey : CoreT → String
  | CoreT.plain _ => ""
  | CoreT.tmpl _ a => "<" ++ tyListKey a ++ ">"

/-- Replace the head name of a core type, keeping its template
arguments. -/
def renameHead : CoreT → String → CoreT
  | CoreT.plain _, n => CoreT.plain n
  | CoreT.tmpl _ a, n => CoreT.tmpl n a

/-- The core type of the parameter at a position. -/
def paramCoreAt : ParamsX → Nat → Option CoreT
  | ParamsX.single p, 0 => some p.ty.core
  | ParamsX.single _, _ + 1 => none
  | ParamsX.cons p _, 0 => some p.ty.core
  | ParamsX.cons _ r, i + 1 => paramCoreAt r i

/-- Rename the head of the core type of the parameter at a position. -/
def renameAt : ParamsX → Nat → String → ParamsX
  | ParamsX.single p, 0, n =>
      ParamsX.single ⟨p.ty.withCore (renameHead p.ty.core n), p.pname, p.defv⟩
  | ParamsX.single p, _ + 1, _ => ParamsX.single p
  | ParamsX.cons p r, 0, n =>
      ParamsX.cons ⟨p.ty.withCore (renameHead p.ty.core n), p.pname, p.defv⟩ r
  | ParamsX.cons p r, i + 1, n => ParamsX.cons p (renameAt r i n)

/-- The list of parameter core types. -/
def coreList : ParamsX → List CoreT
  | ParamsX.single p => [p.ty.core]
  | ParamsX.cons p r => p.ty.core :: coreList r

/-- The canonical map key of a rendered signature. -/
def canonKey (sg : SigX) (layout : List String) : String :=
  get_mapsig_key (create_map_sig (vtreeOf sg layout) (renderSig sg layout))

/- ## Concrete example signatures -/

def tyTensor : TyX := TyX.mk false (CoreT.plain "Tensor") none

def tyTensorCR : TyX := TyX.mk true (CoreT.plain "Tensor") (some RefKind.amp)

/-- Tensor add(const Tensor& a, Tensor b) -/
def exSig1 : SigX :=
  ⟨tyTensor, "add",
    ParamsX.cons ⟨tyTensorCR, "a", none⟩ (ParamsX.single ⟨tyTensor, "b", none⟩)⟩

def exLayout1 : List String := ["", " ", "", "", " ", "", " ", "", " ", " ", ""]

/-- The same signature with a tab instead of the space after the comma. -/
def exLayoutTab : List String := ["", " ", "", "", " ", "", " ", "", "\t", " ", ""]

/-- Tensor add(Tensor x, Tensor y), no qualifiers, other names. -/
def exSig2 : SigX :=
  ⟨tyTensor, "add",
    ParamsX.cons ⟨tyTensor, "x", none⟩ (ParamsX.single ⟨tyTensor, "y", none⟩)⟩

def exLayout2 : List String := ["", " ", "", "", " ", "", "", " ", " ", ""]

/- ## Generation options (FuncOpts) -/

structure FuncOpts where
  ref_param : Option String
  device_param : Option String
  wparams : Option (List String)
  outfn_template : Option String
  outfn_name : Option String
  shape_check_indices : Option (List (Nat × Nat))

/-- FuncOpts() with every field unset. -/
def emptyOpts : FuncOpts := ⟨none, none, none, none, none, none⟩

/-- get_optional specialized to the ref_param field: an unset options
record or an unset or falsy field yields the default None. -/
def get_optional_ref (fnopts : Option FuncOpts) : Option String :=
  match fnopts with
  | none => none
  | some o =>
      match o.ref_param with
      | none => none
      | some s => if s = "" then none else some s

/- ## Structural type queries (type_core and friends) -/

/-- type_core: the head name of the core type of a type tree. -/
def type_core (t : TyX) : String :=
  match t.core with
  | CoreT.plain n => n
  | CoreT.tmpl n _ => n

/-- type_is_const: the type tree starts with a const token. -/
def type_is_const : TyX → Bool
  | TyX.mk c _ _ => c

/-- type_is_refptr: the type tree ends with the given marker. -/
def type_is_refptr (t : TyX) (kind : RefKind) : Bool :=
  match t with
  | TyX.mk _ _ r => r = some kind

def tyListToList : TyList → List TyX
  | TyList.single t => [t]
  | TyList.cons t r => t :: tyListToList r

/-- get_template_type_list: the argument types of a template core type.
On a non-template type the source asserts; here the empty list stands
for that unreachable case. -/
def get_template_type_list (t : TyX) : List TyX :=
  match t.core with
  | CoreT.plain _ => []
  | CoreT.tmpl _ a => tyListToList a

/-- The core type name with one level of c10::optional unwrapped, as
computed at the top of the get_reference_param loop body. -/
def effective_core (t : TyX) : String :=
  let c := type_core t
  if c = "c10::optional" then
    match get_template_type_list t with
    | [] => c
    | x :: _ => type_core x
  else c

def is_tensor_param (p : ParamX) : Bool := effective_core p.ty = "Tensor"

def is_special_param (p : ParamX) : Bool :=
  effective_core p.ty = "TensorOptions" || effective_core p.ty = "TensorList"
    || effective_core p.ty = "Device"

/- ## Claim C3: the reference parameter -/

/-- The loop of get_reference_param with its two accumulator
variables. -/
def grp_loop : List ParamX → Option FuncOpts → Option ParamX → Option ParamX →
    Option ParamX
  | [], _, ref_param, other => ref_param <|> other
  | p :: rest, fnopts, ref_param, other =>
      if get_optional_ref fnopts = some p.pname then some p
      else
        let other1 := if other.isNone && is_special_param p then some p else other
        if effective_core p.ty = "Tensor" then
          let ref1 :=
            if ref_param.isNone && (p.pname = "self" || type_is_const p.ty)
            then some p else ref_param
          grp_loop rest fnopts ref1 (some p)
        else grp_loop rest fnopts ref_param other1

/-- get_reference_param: the parameter supplying the result device. -/
def get_reference_param (params : List ParamX) (fnopts : Option FuncOpts) :
    Option ParamX :=
  grp_loop params fnopts none none

/-- The first parameter matching the policy-declared reference name. -/
def declared_ref (fnopts : Option FuncOpts) : List ParamX → Option ParamX
  | [] => none
  | p :: rest =>
      if get_optional_ref fnopts = some p.pname then some p
      else declared_ref fnopts rest

/-- The first tensor parameter named self or const-qualified. -/
def first_self_const : List ParamX → Option ParamX
  | [] => none
  | p :: rest =>
      if is_tensor_param p && (p.pname = "self" || type_is_const p.ty)
      then some p else first_self_const rest

/-- The first TensorOptions-, TensorList- or Device-typed parameter. -/
def first_special : List ParamX → Option ParamX
  | [] => none
  | p :: rest => if is_special_param p then some p else first_special rest

/-- The last tensor-typed parameter. -/
def last_tensor : List ParamX → Option ParamX
  | [] => none
  | p :: rest =>
      last_tensor rest <|> (if is_tensor_param p then some p else none)

/-- The reference parameter as the frozen claim describes it:
declared name, else first self-or-const tensor, else first special,
else last tensor. -/
def reference_param_claim (params : List ParamX) (fnopts : Option FuncOpts) :
    Option ParamX :=
  declared_ref fnopts params <|> first_self_const params
    <|> first_special params <|> last_tensor params

/-- The reference parameter as the code actually selects it: declared
name, else first self-or-const tensor, else last tensor, else first
special. -/
def reference_param_amended (params : List ParamX) (fnopts : Option FuncOpts) :
    Option ParamX :=
  declared_ref fnopts params <|> first_self_const params
    <|> last_tensor params <|> first_special params

/-- Parameters Tensor a, TensorOptions o. -/
def exParams3 : List ParamX :=
  [⟨tyTensor, "a", none⟩, ⟨TyX.mk false (CoreT.plain "TensorOptions") none, "o", none⟩]

/- ## Claim C4: the out-variant strategy -/

/-- The first list is a prefix of the second. -/
def isPrefixL : List Char → List Char → Bool
  | [], _ => true
  | _ :: _, [] => false
  | a :: as_, b :: bs => a = b && isPrefixL as_ bs

/-- The regular expression match of a name against the out suffix. -/
def ends_out (fname : String) : Bool :=
  isPrefixL "_out".data.reverse fname.data.reverse

/-- The greedy group of the out-suffix match: the name without the
trailing four characters. -/
def strip_out (fname : String) : String :=
  ⟨fname.data.take (fname.data.length - 4)⟩

/-- get_param_names. -/
def get_param_names (params : List ParamX) : List String :=
  params.map ParamX.pname

/-- create_call. -/
def create_call (fname : String) (param_vars : List String) : String :=
  fname ++ "(" ++ joinSep ", " param_vars ++ ")"

/-- One step of ArgTemplate substitution; fuel-structural scan over the
template text replacing dollar-identifiers by positional names. -/
def expand_go (mdict : List (String × String)) : Nat → List Char → List Char
  | 0, l => l
  | _ + 1, [] => []
  | fuel + 1, '$' :: rest =>
      match rest with
      | '$' :: r2 => '$' :: expand_go mdict fuel r2
      | _ =>
          let ident := rest.takeWhile (fun c =>
            ('a' ≤ c && c ≤ 'z') || ('0' ≤ c && c ≤ '9') || c = '_')
          let r2 := rest.drop ident.length
          match mdict.lookup (⟨ident⟩ : String) with
          | some v => v.data ++ expand_go mdict fuel r2
          | none => '$' :: expand_go mdict fuel rest
  | fuel + 1, c :: rest => c :: expand_go mdict fuel rest

/-- expand_fn_template: positional template substitution. -/
def expand_fn_template (tmpl : String) (param_vars : List String) : String :=
  let mdict := (List.range param_vars.length).map
    (fun i => (toString i, param_vars.getD i ""))
  ⟨expand_go mdict (tmpl.data.length + 1) tmpl.data⟩

/-- generate_outfn_result_copy. -/
def generate_outfn_result_copy (dest src : String) : String :=
  "  bridge::XlaUpdateTensors(\x7b" ++ dest ++ "\x7d, \x7b" ++ src
    ++ "\x7d, \x7b0\x7d);\n"

/-- generate_entry_debug_code with no counter namespace. -/
def generate_entry_debug_code (fname : String) (params : List ParamX) : String :=
  "  XLA_FN_TRACK(3);\n"
    ++ "  TF_VLOG(3) << \"XLA " ++ fname ++ " :\""
    ++ strConcat (params.map (fun p =>
        if type_core p.ty = "Tensor"
        then " << \" " ++ p.pname ++ "=\" << " ++ p.pname ++ ".toString()"
        else ""))
    ++ ";\n"

/-- get_return_type_str: the source text strictly before the function
name token. -/
def get_return_type_str (t : PTree) (orig_sig : String) : String :=
  match typed_child t 1 with
  | PTree.node _ ks =>
      match Kids.toList ks with
      | PTree.tok tok :: _ => pySlice orig_sig 0 (tok.colm - 2)
      | _ => ""
  | _ => ""

/-- generate_aten_out, translated step for step from the source; the
assertion that the name ends in the out suffix is totalized by the
unconditional suffix strip of strip_out. -/
def generate_aten_out (rtype : TyX) (rwxtree : PTree) (fname sig rwsig : String)
    (params : List ParamX) (fnopts : FuncOpts) : String :=
  let num_outputs : Option Nat :=
    if type_core rtype = "std::tuple"
    then some (get_template_type_list rtype).length else none
  let code := sig ++ " \x7b\n"
  let code := code ++ generate_entry_debug_code fname params
  let param_vars := get_param_names params
  let fcall :=
    match fnopts.outfn_template with
    | some tmpl => expand_fn_template tmpl param_vars
    | none =>
        let out_count := match num_outputs with | some n => n | none => 1
        create_call ("AtenXlaType::" ++ strip_out fname) (param_vars.drop out_count)
  let tmp_result := fname ++ "_tmp"
  let code := code ++ "  auto " ++ tmp_result ++ " = " ++ fcall ++ ";\n"
  match num_outputs with
  | none =>
      let code := code ++ generate_outfn_result_copy (param_vars.getD 0 "") tmp_result
      let code := code ++ "  return " ++ param_vars.getD 0 "" ++ ";\n"
      code ++ "\x7d"
  | some n =>
      let code := code ++ strConcat ((List.range n).map (fun i =>
        generate_outfn_result_copy (param_vars.getD i "")
          ("std::get<" ++ toString i ++ ">(" ++ tmp_result ++ ")")))
      let code := code ++ "  return " ++ get_return_type_str rwxtree rwsig ++ "("
        ++ joinSep ", " (param_vars.take n) ++ ");\n"
      code ++ "\x7d"

/-- The output count N of the claim: tuple arity, else one. -/
def outN (rtype : TyX) : Nat :=
  if type_core rtype = "std::tuple" then (get_template_type_list rtype).length else 1

/-- Everything the claim asserts about the body up to the return
statement: the call of the suffix-stripped function with the parameters
from position N onward, and one update-in-place copy per output, the
i-th from the i-th result element to the i-th parameter. -/
def aten_out_body_spec (rtype : TyX) (fname sig : String)
    (params : List ParamX) : String :=
  let n := outN rtype
  let param_vars := get_param_names params
  let tmp := fname ++ "_tmp"
  sig ++ " \x7b\n" ++ generate_entry_debug_code fname params
    ++ "  auto " ++ tmp ++ " = "
    ++ create_call ("AtenXlaType::" ++ strip_out fname) (param_vars.drop n) ++ ";\n"
    ++ (if type_core rtype = "std::tuple"
        then strConcat ((List.range n).map (fun i =>
          generate_outfn_result_copy (param_vars.getD i "")
            ("std::get<" ++ toString i ++ ">(" ++ tmp ++ ")")))
        else generate_outfn_result_copy (param_vars.getD 0 "") tmp)

/-- The return statement as the frozen claim words it: the single first
parameter when N is one, an N-tuple of the first N parameters
otherwise. -/
def out_return_claimed (rtype : TyX) (rwxtree : PTree) (rwsig : String)
    (params : List ParamX) : String :=
  if outN rtype = 1
  then "  return " ++ (get_param_names params).getD 0 "" ++ ";\n"
  else "  return " ++ get_return_type_str rwxtree rwsig ++ "("
    ++ joinSep ", " ((get_param_names params).take (outN rtype)) ++ ");\n"

/-- The return statement as the code emits it: the single first
parameter for a non-tuple return type, an N-tuple of the first N
parameters for a tuple return type, including a one-element tuple. -/
def out_return_amended (rtype : TyX) (rwxtree : PTree) (rwsig : String)
    (params : List ParamX) : String :=
  if type_core rtype = "std::tuple"
  then "  return " ++ get_return_type_str rwxtree rwsig ++ "("
    ++ joinSep ", " ((get_param_names params).take (outN rtype)) ++ ");\n"
  else "  return " ++ (get_param_names params).getD 0 "" ++ ";\n"

/-- The full generated text the frozen claim describes. -/
def generate_aten_out_claimed (rtype : TyX) (rwxtree : PTree)
    (fname sig rwsig : String) (params : List ParamX) : String :=
  aten_out_body_spec rtype fname sig params
    ++ out_return_claimed rtype rwxtree rwsig params ++ "\x7d"

/-- The full generated text with the return statement amended. -/
def generate_aten_out_amendspec (rtype : TyX) (rwxtree : PTree)
    (fname sig rwsig : String) (params : List ParamX) : String :=
  aten_out_body_spec rtype fname sig params
    ++ out_return_amended rtype rwxtree rwsig params ++ "\x7d"

/-- std::tuple of one Tensor. -/
def tyTuple1 : TyX :=
  TyX.mk false (CoreT.tmpl "std::tuple" (TyList.single tyTensor)) none

/-- std::tuple of Tensor foo_out(Tensor out, Tensor self). -/
def exSig4 : SigX :=
  ⟨tyTuple1, "foo_out",
    ParamsX.cons ⟨tyTensor, "out", none⟩ (ParamsX.single ⟨tyTensor, "self", none⟩)⟩

def exLayout4 : List String := ["", "", "", "", "", " ", "", "", " ", "", " ", "", ""]

def exParams4 : List ParamX := [⟨tyTensor, "out", none⟩, ⟨tyTensor, "self", none⟩]

/- ## Claim C5: delegation target resolution -/

/-- Occurrence check for a pattern anywhere in a character list. -/
def containsSub (pat : List Char) : List Char → Bool
  | [] => isPrefixL pat []
  | c :: rest => isPrefixL pat (c :: rest) || containsSub pat rest

/-- The function-existence source, read into memory by the excluded
collaborator (class Context). -/
structure Context where
  functions_data : String

/-- The empty _XLA_FUNCTIONS table. -/
def _XLA_FUNCTIONS : List (String × String) := []

/-- Context.get_function: the name exists iff the text space name
parenthesis occurs in the function-existence source. -/
def Context.get_function (ctx : Context) (name : String) : Option String :=
  if containsSub (" " ++ name ++ "(").data ctx.functions_data.data
  then some ("at::" ++ name) else none

/-- get_handling_function: a fully qualified free call when the
function exists, else a member invocation on the converted reference
parameter with the reference parameter removed from the arguments.
The source list-remove raises when the element is absent; List.erase
totalizes that case. -/
def get_handling_function (ctx : Context) (fname xla_ref_param : String)
    (param_vars : List String) : String :=
  let function := match _XLA_FUNCTIONS.lookup fname with
    | some f => some f
    | none => ctx.get_function fname
  match function with
  | some f => f ++ "(" ++ joinSep ", " param_vars ++ ")"
  | none =>
      let other_params := param_vars.erase xla_ref_param
      xla_ref_param ++ "." ++ fname ++ "(" ++ joinSep ", " other_params ++ ")"

/- ## Claim C6: when registration is required -/

/-- The fixed dual-dispatch set _FN_AUTOGRAD_XLA. -/
def _FN_AUTOGRAD_XLA : List String :=
  ["max_pool2d(Tensor, IntArrayRef, IntArrayRef, IntArrayRef, IntArrayRef, bool) -> Tensor",
   "max_pool3d(Tensor, IntArrayRef, IntArrayRef, IntArrayRef, IntArrayRef, bool) -> Tensor"]

/-- A generated function record, with the fields the registration
builder consumes. -/
structure FuncGenR where
  func : String
  xfunc : String
  code : Option String
  mapsig : String
  funsig : String
  aten_sig : String
  dispatch : Bool
  math : Bool

/-- requires_registration. -/
def requires_registration (fgen : FuncGenR) (overrides : List String) : Bool :=
  let requires_lowering := fgen.dispatch && !fgen.math
  let has_xla_lowering := overrides.contains (get_mapsig_key fgen.mapsig)
  let has_autogradxla := _FN_AUTOGRAD_XLA.contains fgen.mapsig
    || _FN_AUTOGRAD_XLA.contains fgen.func
  requires_lowering || has_xla_lowering || has_autogradxla

/-- Registration requirement as the frozen claim words it, with the
dual-dispatch membership tested on the canonical whitespace-stripped
key. -/
def requires_registration_claimed (fgen : FuncGenR) (overrides : List String) : Bool :=
  (fgen.dispatch && !fgen.math)
    || overrides.contains (get_mapsig_key fgen.mapsig)
    || _FN_AUTOGRAD_XLA.contains (get_mapsig_key fgen.mapsig)
    || _FN_AUTOGRAD_XLA.contains fgen.func

/-- The max_pool2d record with neither flag set and its raw spaced map
signature. -/
def exFgen6 : FuncGenR :=
  ⟨"max_pool2d", "AtenXlaTypeDefault::max_pool2d", none,
    "max_pool2d(Tensor, IntArrayRef, IntArrayRef, IntArrayRef, IntArrayRef, bool) -> Tensor",
    "fs", "aten::max_pool2d(x)", false, false⟩

/- ## Claim C7: the emitted registrations -/

/-- Python str.split with a nonempty separator, fuel-structural. -/
def pySplitGo (sep : List Char) : Nat → List Char → List Char → List (List Char)
  | 0, acc, l => [acc.reverse ++ l]
  | _ + 1, acc, [] => [acc.reverse]
  | fuel + 1, acc, c :: rest =>
      if isPrefixL sep (c :: rest)
      then acc.reverse :: pySplitGo sep fuel [] ((c :: rest).drop sep.length)
      else pySplitGo sep fuel (c :: acc) rest

def pySplit (s sep : String) : List String :=
  (pySplitGo sep.data (s.data.length + 1) [] s.data).map (fun l => ⟨l⟩)

/-- generate_unboxed: one impl_UNBOXED statement; the registered name
is the text after the namespace and before the first parenthesis of
the schema. -/
def generate_unboxed (aten_sig overload override_fn : String) : String :=
  "  m.impl_UNBOXED(\""
    ++ (pySplit ⟨aten_sig.data.takeWhile (fun c => !(c = '('))⟩ "::").getD 1 ""
    ++ "\", static_cast<" ++ overload ++ ">(&" ++ override_fn ++ "));\n"

/-- The function-pointer overload text: funsig with a starred pointer
spliced before the first parenthesis (or, with no parenthesis, before
the last character, as the Python negative slice does). -/
def add_fnptr (funsig : String) : String :=
  if containsSub "(".data funsig.data then
    (⟨funsig.data.takeWhile (fun c => !(c = '('))⟩ : String) ++ " (*)"
      ++ ⟨funsig.data.dropWhile (fun c => !(c = '('))⟩
  else
    (⟨funsig.data.take (funsig.data.length - 1)⟩ : String) ++ " (*)"
      ++ ⟨funsig.data.drop (funsig.data.length - 1)⟩

/-- One iteration of the generate_registrations loop, the overridden
set modeled as an appended key list (membership-equivalent). -/
def reg_step (overrides : List String) (acc : String × String × List String)
    (fgen : FuncGenR) : String × String × List String :=
  if !(requires_registration fgen overrides) then acc
  else
    let mapsig_key := get_mapsig_key fgen.mapsig
    let ov := overrides.contains mapsig_key
    let override_fn : Option String :=
      if ov then some ("AtenXlaType::" ++ fgen.func)
      else match fgen.code with | some _ => some fgen.xfunc | none => none
    let overridden2 := if ov then acc.2.2 ++ [mapsig_key] else acc.2.2
    match override_fn with
    | some ofn =>
        let overload := add_fnptr fgen.funsig
        let unboxed := generate_unboxed fgen.aten_sig overload ofn
        if _FN_AUTOGRAD_XLA.contains fgen.mapsig
        then (acc.1, acc.2.1 ++ unboxed, overridden2)
        else (acc.1 ++ unboxed, acc.2.1, overridden2)
    | none => (acc.1, acc.2.1, overridden2)

/-- generate_registrations: both dispatch tables and the set of
canonical keys bound to an override. -/
def generate_registrations (fgens : List FuncGenR) (overrides : List String) :
    String × List String :=
  let res := fgens.foldl (reg_step overrides)
    ("TORCH_LIBRARY_IMPL(aten, XLA, m) \x7b\n",
     "TORCH_LIBRARY_IMPL(aten, AutogradXLA, m) \x7b\n", [])
  (res.1 ++ "\n\x7d\n" ++ res.2.1 ++ "\n\x7d\n", res.2.2)

/-- The implementation the claim says gets bound: the override when
the table holds the canonical key, else the generated wrapper when a
body was generated, else none. -/
def bound_impl (fgen : FuncGenR) (overrides : List String) : Option String :=
  if overrides.contains (get_mapsig_key fgen.mapsig)
  then some ("AtenXlaType::" ++ fgen.func)
  else if fgen.code.isSome then some fgen.xfunc else none

/-- The registration statement one record contributes, per the claim. -/
def reg_stmt (fgen : FuncGenR) (overrides : List String) : String :=
  if requires_registration fgen overrides then
    match bound_impl fgen overrides with
    | some ofn => generate_unboxed fgen.aten_sig (add_fnptr fgen.funsig) ofn
    | none => ""
  else ""

def aten_contrib (fgen : FuncGenR) (overrides : List String) : String :=
  if _FN_AUTOGRAD_XLA.contains fgen.mapsig then "" else reg_stmt fgen overrides

def ag_contrib (fgen : FuncGenR) (overrides : List String) : String :=
  if _FN_AUTOGRAD_XLA.contains fgen.mapsig then reg_stmt fgen overrides else ""

/-- The canonical keys recorded as used: those of records that require
registration and have an override. -/
def used_keys (fgens : List FuncGenR) (overrides : List String) : List String :=
  (fgens.filter (fun f => requires_registration f overrides
      && overrides.contains (get_mapsig_key f.mapsig))).map
    (fun f => get_mapsig_key f.mapsig)

/- ## Claim C8: unused override validation -/

/-- The per-entry report text for an unused override. -/
def reportLine (cpp_sig mapsig : String) : String :=
  "AtenXlaType function missed override: " ++ cpp_sig ++ "; // " ++ mapsig

/-- One iteration of the check_overrides loop: count a miss and report
it when the canonical key was never bound. -/
def co_step (overridden : List String) (acc : Nat × List String)
    (ov : String × String) : Nat × List String :=
  if !(overridden.contains (get_mapsig_key ov.1))
  then (acc.1 + 1, acc.2 ++ [reportLine ov.2 ov.1])
  else acc

/-- check_overrides: the success flag and the per-entry reports, the
print calls modeled as the returned report list. -/
def check_overrides (overrides : List (String × String))
    (overridden : List String) : Bool × List String :=
  let res := overrides.foldl (co_step overridden) (0, [])
  (res.1 == 0, res.2)

/- ## Claim C9: extraction error handling -/

/-- Python str.replace for a nonempty pattern: left-to-right scan over
non-overlapping occurrences, fuel-structural (the fuel of the caller
covers the input length). -/
def pyReplaceGo (old new : List Char) : Nat → List Char → List Char
  | 0, l => l
  | _ + 1, [] => []
  | fuel + 1, c :: rest =>
      if isPrefixL old (c :: rest)
      then new ++ pyReplaceGo old new fuel ((c :: rest).drop old.length)
      else c :: pyReplaceGo old new fuel rest

def pyReplace (s old new : String) : String :=
  ⟨pyReplaceGo old.data new.data s.data.length s.data⟩

/-- Word-boundary search for the word Tensor: an occurrence not
preceded and not followed by a word character. -/
def hasTensorAt (prev : Option Char) : List Char → Bool
  | [] => false
  | c :: rest =>
      (isPrefixL "Tensor".data (c :: rest)
        && (match prev with | none => true | some p => !(wordChar p))
        && (match (c :: rest).drop 6 with
            | [] => true
            | d :: _ => !(wordChar d)))
      || hasTensorAt (some c) rest

/-- is_tensor_api: strip at:: qualifiers, shorten c10::Device, then
word-boundary search for Tensor; returns the flag and the rewritten
text. -/
def is_tensor_api (fndef : String) : Bool × String :=
  let f1 := pyReplace fndef "at::" ""
  let f2 := pyReplace f1 "c10::Device" "Device"
  (hasTensorAt none f2.data, f2)

/-- A parsed function definition record; the JSON trailer is modeled
as an association list, a missing mandatory schema as the empty
string. -/
structure FuncDefR where
  cpp_sig : String
  aten_sig : String
  dispatch : Bool
  math : Bool
  deriving Repr, DecidableEq

def create_funcdef (fndef : String) (fields : List (String × String)) : FuncDefR :=
  { cpp_sig := fndef
    aten_sig := (fields.lookup "schema").getD ""
    dispatch := (fields.lookup "dispatch").getD "False" == "True"
    math := (fields.lookup "math").getD "False" == "True" }

/-- One iteration of the extraction loop over the regex-matched lines,
the verbatim parser abstracted as an acceptance oracle and the raised
message as a function of the signature. -/
def ef_step (parses : String → Bool) (errMsg : String → String)
    (acc : List FuncDefR × List (String × String))
    (l : String × List (String × String)) :
    List FuncDefR × List (String × String) :=
  if parses l.1 then (acc.1 ++ [create_funcdef l.1 l.2], acc.2)
  else if (is_tensor_api l.1).1 then (acc.1, acc.2 ++ [(l.1, errMsg l.1)])
  else acc

/-- extract_functions over the matched (signature, json fields) lines. -/
def extract_functions (parses : String → Bool) (errMsg : String → String)
    (lines : List (String × List (String × String))) :
    List FuncDefR × List (String × String) :=
  lines.foldl (ef_step parses errMsg) ([], [])

/- ## Claim C10: blacklist still registers overrides -/

/-- Anchored match of the blacklist pattern: any characters other than
an open parenthesis, then the text cudnn. -/
def cudnnMatch : List Char → Bool
  | [] => false
  | c :: rest =>
      isPrefixL "cudnn".data (c :: rest)
      || (!(c = '(') && cudnnMatch rest)

def _FN_BLACKLIST : List String := []

def is_blacklisted_fn (fname mapsig : String) : Bool :=
  _FN_BLACKLIST.contains fname || _FN_BLACKLIST.contains mapsig
    || cudnnMatch fname.data || cudnnMatch mapsig.data

def _FN_OUT : List (String × FuncOpts) :=
  ["abs_out", "add_out", "acos_out", "acosh_out", "asin_out", "asinh_out",
   "atan_out", "atan2_out", "atanh_out", "baddbmm_out", "bernoulli_out",
   "binary_cross_entropy_out", "binary_cross_entropy_backward_out",
   "clamp_out", "div_out", "gather_out", "ger_out", "hardsigmoid_out",
   "kthvalue_out", "index_select_out", "inverse_out", "log_out",
   "masked_select_out", "maximum_out", "minimum_out", "pow_out", "prod_out",
   "nonzero_out", "round_out", "normal_out", "std_out", "take_out",
   "topk_out", "var_out"].map (fun n => (n, emptyOpts))

/-- FuncOpts with only an out-function name set. -/
def remapOpts (n : String) : FuncOpts := ⟨none, none, none, none, some n, none⟩

/-- FuncOpts with an out-function name and shape-check index pairs. -/
def remapOptsShape (n : String) (sci : List (Nat × Nat)) : FuncOpts :=
  ⟨none, none, none, none, some n, some sci⟩

def _FN_REMAP : List (String × FuncOpts) :=
  [("_th_eq(Tensor, Scalar) -> Tensor", remapOpts "AtenXlaType::eq"),
   ("_th_eq(Tensor, Tensor) -> Tensor", remapOpts "AtenXlaType::eq"),
   ("_th_ge(Tensor, Scalar) -> Tensor", remapOpts "AtenXlaType::ge"),
   ("_th_ge(Tensor, Tensor) -> Tensor", remapOpts "AtenXlaType::ge"),
   ("_th_gt(Tensor, Scalar) -> Tensor", remapOpts "AtenXlaType::gt"),
   ("_th_gt(Tensor, Tensor) -> Tensor", remapOpts "AtenXlaType::gt"),
   ("_th_le(Tensor, Scalar) -> Tensor", remapOpts "AtenXlaType::le"),
   ("_th_le(Tensor, Tensor) -> Tensor", remapOpts "AtenXlaType::le"),
   ("_th_lt(Tensor, Scalar) -> Tensor", remapOpts "AtenXlaType::lt"),
   ("_th_lt(Tensor, Tensor) -> Tensor", remapOpts "AtenXlaType::lt"),
   ("_th_ne(Tensor, Scalar) -> Tensor", remapOpts "AtenXlaType::ne"),
   ("_th_ne(Tensor, Tensor) -> Tensor", remapOpts "AtenXlaType::ne"),
   ("s__th_and(Tensor, Tensor) -> Tensor",
      remapOptsShape "AtenXlaType::__and__" [(0, 1)]),
   ("s__th_or(Tensor, Tensor) -> Tensor",
      remapOptsShape "AtenXlaType::__or__" [(0, 1)]),
   ("s__th_eq(Tensor, Tensor) -> Tensor",
      remapOptsShape "AtenXlaType::eq" [(0, 1)])]

/-- get_outfn_options: name lookup first by function name then by map
signature; the regex table is empty in the source. -/
def get_outfn_options (fname mapsig : String) : Option FuncOpts :=
  match _FN_OUT.lookup fname with
  | some o => some o
  | none => _FN_OUT.lookup mapsig

def get_remapfn_options (fname mapsig : String) : Option FuncOpts :=
  match _FN_REMAP.lookup fname with
  | some o => some o
  | none => _FN_REMAP.lookup mapsig

/-- The code-selection skeleton of get_xla_wrapper: the three wrapper
generators are abstracted as oracles for the body text each strategy
would produce. -/
def get_xla_wrapper_code (outCode : FuncOpts → Option String)
    (remapCode : FuncOpts → Option String) (defaultCode : Option String)
    (fname mapsig : String) : Option String :=
  if !(is_blacklisted_fn fname mapsig) then
    match get_outfn_options fname mapsig with
    | some o => outCode o
    | none =>
        match get_remapfn_options fname mapsig with
        | some r => remapCode r
        | none => defaultCode
  else
    none

/-- A blacklisted record: the function name matches the cudnn pattern. -/
def exFgen10 : FuncGenR :=
  { func := "cudnn_convolution"
    xfunc := "AtenXlaTypeDefault::cudnn_convolution"
    code := get_xla_wrapper_code (fun _ => none) (fun _ => none) none
      "cudnn_convolution" "cudnn_convolution(Tensor) -> Tensor"
    mapsig := "cudnn_convolution(Tensor) -> Tensor"
    funsig := "Tensor (Tensor)"
    aten_sig := "aten::cudnn_convolution(Tensor self) -> Tensor"
    dispatch := false
    math := false }

def ov10 : List String := ["cudnn_convolution(Tensor)->Tensor"]

/- ## Theorems -/

/- ## Emission lemmas: the identity decision function -/

theorem advanceAll_append (a b : List Tok) (e : StringEmit) :
    advanceAll (a ++ b) e = advanceAll b (advanceAll a e) :=
  List.foldl_append _ _ _ _

mutual

theorem emitString_default (t : PTree) (e : StringEmit) :
    emitString defaultEmitFn t e = advanceAll (tokensOf t) e := by
  cases t with
  | tok tk => simp [emitString, defaultEmitFn, tokensOf, advanceAll]
  | node d ks => simp [emitString, defaultEmitFn, tokensOf, emitKids_default]

theorem emitKids_default (ks : Kids) (e : StringEmit) :
    emitKids defaultEmitFn ks e = advanceAll (tokensK ks) e := by
  cases ks with
  | nil => simp [emitKids, tokensK, advanceAll]
  | cons h t =>
      simp [emitKids, tokensK, advanceAll_append, emitString_default h,
        emitKids_default t]

end

theorem Tiles.le_start {src : List Char} {p gs ts q}
    (h : Tiles src p gs ts q) : p ≤ q := by
  induction h with
  | nil => exact Nat.le_refl _
  | cons p g tk gs ts q h1 h2 h3 h4 ih => omega

theorem Tiles.eq_of_nil {src : List Char} {p gs q}
    (h : Tiles src p gs [] q) : p = q := by
  cases h; rfl

theorem Tiles.seq {src : List Char} {p gs1 ts1 m gs2 ts2 q}
    (h1 : Tiles src p gs1 ts1 m) (h2 : Tiles src m gs2 ts2 q) :
    Tiles src p (gs1 ++ gs2) (ts1 ++ ts2) q := by
  induction h1 with
  | nil => simpa using h2
  | cons p g tk gs ts m h3 h4 h5 h6 ih =>
      exact Tiles.cons _ _ _ _ _ _ h3 h4 h5 (ih h2)

theorem Tiles.widen {src ext : List Char} {p gs ts q}
    (h : Tiles src p gs ts q) : Tiles (src ++ ext) p gs ts q := by
  induction h with
  | nil => exact Tiles.nil _
  | cons p g tk gs ts q h1 h2 h3 h4 ih =>
      refine Tiles.cons _ _ _ _ _ _ h1 h2 ?_ ih
      have hlen : g.length + tk.v.length ≤ (src.drop p).length := by
        have h5 := congrArg List.length h3
        simp only [List.length_take, List.length_append] at h5
        have hgd : g.data.length = g.length := rfl
        have hvd : tk.v.data.length = tk.v.length := rfl
        omega
      rw [List.drop_append_eq_append_drop,
        List.take_append_of_le_length hlen, h3]

theorem strLen (s : String) : s.data.length = s.length := rfl

theorem strDataApp (a b : String) : (a ++ b).data = a.data ++ b.data := rfl

/-- A single pushed token tiles the new output from the old position. -/
theorem pushTok_tiles (tt v : String) (s : BSt) (hs : s.pos = s.out.data.length) :
    Tiles (pushTok tt v s).2.out.data s.pos [s.gaps.headD ""] [(pushTok tt v s).1]
        (pushTok tt v s).2.pos
      ∧ (pushTok tt v s).2.pos = (pushTok tt v s).2.out.data.length
      ∧ (pushTok tt v s).2.gaps = s.gaps.tail
      ∧ (pushTok tt v s).2.out = s.out ++ s.gaps.headD "" ++ v := by
  obtain ⟨pos, gaps, out⟩ := s
  simp only at hs
  have hdata : ∀ g : String, (out ++ g ++ v).data = out.data ++ (g.data ++ v.data) := by
    intro g
    rw [strDataApp, strDataApp, List.append_assoc]
  have hseg : ∀ g : String,
      ((out ++ g ++ v).data.drop pos).take (g.length + v.length)
        = g.data ++ v.data := by
    intro g
    rw [hdata g, hs, List.drop_left]
    refine List.take_of_length_le ?_
    rw [List.length_append, strLen, strLen]
  cases gaps with
  | nil =>
      refine ⟨?_, ?_, rfl, rfl⟩
      · refine Tiles.cons _ "" _ _ _ _ rfl ?_ (hseg "") (Tiles.nil _)
        show pos + String.length "" + v.length + 1
          = pos + String.length "" + 1 + v.length
        omega
      · show pos + String.length "" + v.length = (out ++ "" ++ v).data.length
        rw [hdata "", List.length_append, List.length_append]
        have e1 := strLen ""
        have e2 := strLen v
        omega
  | cons g gs =>
      refine ⟨?_, ?_, rfl, rfl⟩
      · refine Tiles.cons _ g _ _ _ _ rfl ?_ (hseg g) (Tiles.nil _)
        show pos + g.length + v.length + 1 = pos + g.length + 1 + v.length
        omega
      · show pos + g.length + v.length = (out ++ g ++ v).data.length
        rw [hdata g, List.length_append, List.length_append]
        have e1 := strLen g
        have e2 := strLen v
        omega

/- ## Folding advance over tiled tokens -/

theorem strExt {a b : String} (h : a.data = b.data) : a = b := by
  cases a; cases b; cases h; rfl

theorem emitExt {a b : StringEmit} (h1 : a.sref = b.sref) (h2 : a.sval = b.sval)
    (h3 : a.pos = b.pos) : a = b := by
  cases a; cases b; cases h1; cases h2; cases h3; rfl

theorem advanceAll_tiles {src : List Char} {p gs ts q}
    (h : Tiles src p gs ts q) (sv : List Char) :
    advanceAll ts ⟨⟨src⟩, ⟨sv⟩, (p : Int)⟩
      = ⟨⟨src⟩, ⟨sv ++ (src.drop p).take (q - p)⟩,
          if ts.isEmpty then (p : Int) else (q : Int)⟩ := by
  induction h generalizing sv with
  | nil p => simp [advanceAll]
  | cons p g tk gs ts q h1 h2 h3 h4 ih =>
      have hgl : g.data.length = g.length := rfl
      have hvl : tk.v.data.length = tk.v.length := rfl
      have hgap : (src.drop p).take g.length = g.data := by
        have h5 := congrArg (List.take g.length) h3
        rw [List.take_take] at h5
        rw [Nat.min_def, if_pos (by omega)] at h5
        rw [h5, ← hgl, List.take_left]
      have hstep : StringEmit.advance ⟨⟨src⟩, ⟨sv⟩, (p : Int)⟩ tk
          = ⟨⟨src⟩, ⟨sv ++ g.data ++ tk.v.data⟩,
              ((p + g.length + tk.v.length : Nat) : Int)⟩ := by
        refine emitExt rfl ?_ ?_
        · show (if (if (0 : Int) ≤ (p : Int) then (p : Int) else ((tk.colm : Int) - 1))
                < (tk.colm : Int) - 1 then
                  String.mk sv ++ pySlice ⟨src⟩
                    (if (0 : Int) ≤ (p : Int) then (p : Int) else ((tk.colm : Int) - 1)).toNat
                    ((tk.colm : Int) - 1).toNat
                else String.mk sv) ++ tk.v
              = String.mk (sv ++ g.data ++ tk.v.data)
          rw [if_pos (Int.natCast_nonneg p)]
          by_cases hg : 0 < g.length
          · rw [if_pos (by rw [h1]; push_cast; omega)]
            refine strExt ?_
            have hc1 : ((p : Int)).toNat = p := by omega
            have hc2 : ((tk.colm : Int) - 1).toNat = p + g.length := by
              rw [h1]; omega
            simp only [pySlice, hc1, hc2, strDataApp]
            rw [show p + g.length - p = g.length by omega, hgap]
          · rw [if_neg (by rw [h1]; push_cast; omega)]
            refine strExt ?_
            have hgd : g.data = [] := by
              refine List.length_eq_zero.mp ?_
              omega
            simp only [strDataApp, hgd]
            simp
        · show (tk.ecol : Int) - 1 = ((p + g.length + tk.v.length : Nat) : Int)
          rw [h2, h1]; push_cast; omega
      show advanceAll ts (StringEmit.advance ⟨⟨src⟩, ⟨sv⟩, (p : Int)⟩ tk) = _
      rw [hstep, ih (sv ++ g.data ++ tk.v.data)]
      have hq : p + g.length + tk.v.length ≤ q := h4.le_start
      have hseg : (src.drop p).take (q - p)
          = (g.data ++ tk.v.data)
            ++ (src.drop (p + g.length + tk.v.length)).take
                (q - (p + g.length + tk.v.length)) := by
        have e0 : q - p = (g.length + tk.v.length) + (q - (p + g.length + tk.v.length)) := by
          omega
        rw [e0, List.take_add, h3, List.drop_drop]
        have e1 : p + (g.length + tk.v.length) = p + g.length + tk.v.length := by omega
        rw [e1]
      refine emitExt rfl ?_ ?_
      · show String.mk (sv ++ g.data ++ tk.v.data ++ _) = String.mk (sv ++ _)
        refine congrArg String.mk ?_
        rw [hseg]
        simp [List.append_assoc]
      · cases ts with
        | nil =>
            have e2 := h4.eq_of_nil
            simp [e2]
        | cons a b => simp

/-- When the first gap is empty, starting the emitter with an untracked
cursor is the same as starting it at the region start. -/
theorem advanceAll_neg_one {src : List Char} {p : Nat} {tk : Tok} {ts gs q}
    (h : Tiles src p ("" :: gs) (tk :: ts) q) (sv : List Char) :
    advanceAll (tk :: ts) ⟨⟨src⟩, ⟨sv⟩, -1⟩
      = advanceAll (tk :: ts) ⟨⟨src⟩, ⟨sv⟩, (p : Int)⟩ := by
  cases h with
  | cons _ _ _ _ _ _ h1 h2 h3 h4 =>
      show advanceAll ts (StringEmit.advance ⟨⟨src⟩, ⟨sv⟩, -1⟩ tk)
        = advanceAll ts (StringEmit.advance ⟨⟨src⟩, ⟨sv⟩, (p : Int)⟩ tk)
      have hcol : (tk.colm : Int) - 1 = (p : Int) := by
        rw [h1]
        have e0 : String.length "" = 0 := rfl
        push_cast [e0]
        omega
      have hadv : StringEmit.advance ⟨⟨src⟩, ⟨sv⟩, -1⟩ tk
          = StringEmit.advance ⟨⟨src⟩, ⟨sv⟩, (p : Int)⟩ tk := by
        refine emitExt rfl ?_ ?_
        · show (if (if (0 : Int) ≤ -1 then (-1 : Int) else ((tk.colm : Int) - 1))
                  < (tk.colm : Int) - 1 then _ else String.mk sv) ++ tk.v
              = (if (if (0 : Int) ≤ (p : Int) then (p : Int) else ((tk.colm : Int) - 1))
                  < (tk.colm : Int) - 1 then _ else String.mk sv) ++ tk.v
          rw [if_neg (show ¬ ((0 : Int) ≤ -1) by omega),
            if_pos (Int.natCast_nonneg p), hcol]
        · rfl
      rw [hadv]

theorem TiledChunk.push (tt v : String) (s : BSt) (hs : s.pos = s.out.data.length) :
    TiledChunk s (pushTok tt v s).2 [(pushTok tt v s).1] := by
  obtain ⟨h1, h2, h3, h4⟩ := pushTok_tiles tt v s hs
  refine ⟨⟨[], h1⟩, h2, ⟨(s.gaps.headD "").data ++ v.data, ?_⟩⟩
  rw [h4, strDataApp, strDataApp, List.append_assoc]

theorem TiledChunk.seqc {s m r : BSt} {ts1 ts2 : List Tok}
    (h1 : TiledChunk s m ts1) (h2 : TiledChunk m r ts2) :
    TiledChunk s r (ts1 ++ ts2) := by
  obtain ⟨⟨gs1, t1⟩, i1, ⟨e1, x1⟩⟩ := h1
  obtain ⟨⟨gs2, t2⟩, i2, ⟨e2, x2⟩⟩ := h2
  refine ⟨⟨gs1 ++ m.gaps.headD "" :: gs2, ?_⟩, i2, ⟨e1 ++ e2, ?_⟩⟩
  · have t1' : Tiles r.out.data s.pos (s.gaps.headD "" :: gs1) ts1 m.pos := by
      rw [x2]
      exact t1.widen
    have := t1'.seq t2
    simpa using this
  · rw [x2, x1, List.append_assoc]

mutual

theorem buildCore_chunk (c : CoreT) : ∀ s : BSt, s.pos = s.out.data.length →
    TiledChunk s (buildCore c s).2 (tokensOf (buildCore c s).1) := by
  cases c with
  | plain n =>
      intro s hs
      have h := TiledChunk.push "TNAME" n s hs
      simpa [buildCore, tokensOf, tokensK] using h
  | tmpl n args =>
      intro s hs
      have c1 := TiledChunk.push "TNAME" n s hs
      have c2 := TiledChunk.push "LT" "<" (pushTok "TNAME" n s).2 c1.2.1
      have c3 := buildTyList_chunk args
        (pushTok "LT" "<" (pushTok "TNAME" n s).2).2 c2.2.1
      have c4 := TiledChunk.push "GT" ">"
        (buildTyList args (pushTok "LT" "<" (pushTok "TNAME" n s).2).2).2 c3.2.1
      have h := ((c1.seqc c2).seqc c3).seqc c4
      simpa [buildCore, tokensOf, tokensK, List.append_assoc] using h

theorem buildTy_chunk (t : TyX) : ∀ s : BSt, s.pos = s.out.data.length →
    TiledChunk s (buildTy t s).2 (tokensOf (buildTy t s).1) := by
  cases t with
  | mk c core r =>
      intro s hs
      cases c with
      | false =>
          have c2 := buildCore_chunk core s hs
          cases r with
          | none =>
              simpa [buildTy, tokensOf, tokensK, Kids.ofList] using c2
          | some rk =>
              cases rk with
              | amp =>
                  have c3 := TiledChunk.push "REF" "&" (buildCore core s).2 c2.2.1
                  have h := c2.seqc c3
                  simpa [buildTy, tokensOf, tokensK, Kids.ofList,
                    List.append_assoc] using h
              | star =>
                  have c3 := TiledChunk.push "PTR" "*" (buildCore core s).2 c2.2.1
                  have h := c2.seqc c3
                  simpa [buildTy, tokensOf, tokensK, Kids.ofList,
                    List.append_assoc] using h
      | true =>
          have c1 := TiledChunk.push "CONST" "const" s hs
          have c2 := buildCore_chunk core (pushTok "CONST" "const" s).2 c1.2.1
          cases r with
          | none =>
              have h := c1.seqc c2
              simpa [buildTy, tokensOf, tokensK, Kids.ofList,
                List.append_assoc] using h
          | some rk =>
              cases rk with
              | amp =>
                  have c3 := TiledChunk.push "REF" "&"
                    (buildCore core (pushTok "CONST" "const" s).2).2 c2.2.1
                  have h := (c1.seqc c2).seqc c3
                  simpa [buildTy, tokensOf, tokensK, Kids.ofList,
                    List.append_assoc] using h
              | star =>
                  have c3 := TiledChunk.push "PTR" "*"
                    (buildCore core (pushTok "CONST" "const" s).2).2 c2.2.1
                  have h := (c1.seqc c2).seqc c3
                  simpa [buildTy, tokensOf, tokensK, Kids.ofList,
                    List.append_assoc] using h

theorem buildTyList_chunk (l : TyList) : ∀ s : BSt, s.pos = s.out.data.length →
    TiledChunk s (buildTyList l s).2 (tokensOf (buildTyList l s).1) := by
  cases l with
  | single t =>
      intro s hs
      have h := buildTy_chunk t s hs
      simpa [buildTyList, tokensOf, tokensK] using h
  | cons t rest =>
      intro s hs
      have c1 := buildTy_chunk t s hs
      have c2 := TiledChunk.push "COMMA" "," (buildTy t s).2 c1.2.1
      have c3 := buildTyList_chunk rest (pushTok "COMMA" "," (buildTy t s).2).2 c2.2.1
      have h := (c1.seqc c2).seqc c3
      simpa [buildTyList, tokensOf, tokensK, List.append_assoc] using h

end

theorem buildParam_chunk (p : ParamX) (s : BSt) (hs : s.pos = s.out.data.length) :
    TiledChunk s (buildParam p s).2 (tokensOf (buildParam p s).1) := by
  obtain ⟨ty, nm, dv⟩ := p
  have c1 := buildTy_chunk ty s hs
  have c2 := TiledChunk.push "CNAME" nm (buildTy ty s).2 c1.2.1
  cases dv with
  | none =>
      have h := c1.seqc c2
      simpa [buildParam, tokensOf, tokensK, List.append_assoc] using h
  | some v =>
      have c3 := TiledChunk.push "EQ" "="
        (pushTok "CNAME" nm (buildTy ty s).2).2 c2.2.1
      have c4 := TiledChunk.push (litType v) v
        (pushTok "EQ" "=" (pushTok "CNAME" nm (buildTy ty s).2).2).2 c3.2.1
      have h := ((c1.seqc c2).seqc c3).seqc c4
      simpa [buildParam, tokensOf, tokensK, List.append_assoc] using h

theorem buildParams_chunk (ps : ParamsX) : ∀ s : BSt, s.pos = s.out.data.length →
    TiledChunk s (buildParams ps s).2 (tokensOf (buildParams ps s).1) := by
  induction ps with
  | single p =>
      intro s hs
      have h := buildParam_chunk p s hs
      simpa [buildParams, tokensOf, tokensK] using h
  | cons p rest ih =>
      intro s hs
      have c1 := buildParam_chunk p s hs
      have c2 := TiledChunk.push "COMMA" "," (buildParam p s).2 c1.2.1
      have c3 := ih (pushTok "COMMA" "," (buildParam p s).2).2 c2.2.1
      have h := (c1.seqc c2).seqc c3
      simpa [buildParams, tokensOf, tokensK, List.append_assoc] using h

theorem buildSig_chunk (sg : SigX) (s : BSt) (hs : s.pos = s.out.data.length) :
    TiledChunk s (buildSig sg s).2 (tokensOf (buildSig sg s).1) := by
  have c1 := buildTy_chunk sg.ret s hs
  have c2 := TiledChunk.push "CNAME" sg.fname (buildTy sg.ret s).2 c1.2.1
  have c3 := TiledChunk.push "LPAR" "("
    (pushTok "CNAME" sg.fname (buildTy sg.ret s).2).2 c2.2.1
  have c4 := buildParams_chunk sg.params
    (pushTok "LPAR" "(" (pushTok "CNAME" sg.fname (buildTy sg.ret s).2).2).2 c3.2.1
  have c5 := TiledChunk.push "RPAR" ")"
    (buildParams sg.params
      (pushTok "LPAR" "(" (pushTok "CNAME" sg.fname (buildTy sg.ret s).2).2).2).2
    c4.2.1
  have h := (((c1.seqc c2).seqc c3).seqc c4).seqc c5
  simpa [buildSig, tokensOf, tokensK, List.append_assoc] using h

/- ## The verbatim round trip -/

/-- Re-emitting the verbatim tree of a rendered signature with the
identity decision function reproduces the source text exactly. -/
theorem roundtrip_verbatim (sg : SigX) (layout : List String)
    (hfirst : layout.headD "" = "") :
    rewrite_sig (vtreeOf sg layout) (renderSig sg layout) defaultEmitFn
      = renderSig sg layout := by
  obtain ⟨⟨gs, T0⟩, hinv, hext⟩ := buildSig_chunk sg (initBSt layout) rfl
  have T : Tiles (buildSig sg (initBSt layout)).2.out.data 0
      (layout.headD "" :: gs) (tokensOf (buildSig sg (initBSt layout)).1)
      (buildSig sg (initBSt layout)).2.pos := T0
  rw [hfirst, hinv] at T
  show (emitString defaultEmitFn (vtreeOf sg layout)
      ⟨renderSig sg layout, "", -1⟩).sval = renderSig sg layout
  rw [emitString_default]
  unfold vtreeOf renderSig
  cases hT : tokensOf (buildSig sg (initBSt layout)).1 with
  | nil =>
      rw [hT] at T
      cases T
  | cons tk ts =>
      rw [hT] at T
      have e0 : (⟨(buildSig sg (initBSt layout)).2.out, "", -1⟩ : StringEmit)
          = ⟨⟨(buildSig sg (initBSt layout)).2.out.data⟩, ⟨[]⟩, -1⟩ := rfl
      rw [e0, advanceAll_neg_one T, advanceAll_tiles T]
      show String.mk _ = _
      refine strExt ?_
      show ([] : List Char) ++ _ = _
      rw [List.nil_append, List.drop_zero, Nat.sub_zero, List.take_length]

theorem runActs_append (a b : List Act) (e : StringEmit) :
    runActs (a ++ b) e = runActs b (runActs a e) := by
  induction a generalizing e with
  | nil => rfl
  | cons x r ih =>
      cases x with
      | adv tk => simp [runActs, ih]
      | skipTo m => simp [runActs, ih]

theorem advVals_append (a b : List Act) :
    advVals (a ++ b) = advVals a ++ advVals b := by
  induction a with
  | nil => rfl
  | cons x r ih =>
      cases x with
      | adv tk => simp [advVals, ih]
      | skipTo m => simp [advVals, ih]

theorem mapFn_cases (t : PTree) : mapSigEmitFn t = 0 ∨ mapSigEmitFn t = -1 := by
  cases t with
  | tok tk =>
      by_cases h : tk.tt = "CONST" || tk.tt = "REF" || tk.tt = "PTR"
      · right; simp [mapSigEmitFn, h]
      · left; simp [mapSigEmitFn, h]
  | node d ks =>
      by_cases h : d = "param_name" || d = "param_defval"
      · right; simp [mapSigEmitFn, h]
      · left; simp [mapSigEmitFn, h]

mutual

theorem emitString_map (t : PTree) (e : StringEmit) :
    emitString mapSigEmitFn t e = runActs (mapActs t) e := by
  cases t with
  | tok tk =>
      rcases mapFn_cases (PTree.tok tk) with h | h
      · simp [emitString, mapActs, h, runActs]
      · simp [emitString, mapActs, h, runActs, StringEmit.skip]
  | node d ks =>
      rcases mapFn_cases (PTree.node d ks) with h | h
      · simp [emitString, mapActs, h, emitKids_map ks]
      · simp [emitString, mapActs, h, runActs, StringEmit.skip]

theorem emitKids_map (ks : Kids) : ∀ (e : StringEmit),
    emitKids mapSigEmitFn ks e = runActs (mapActsK ks) e := by
  cases ks with
  | nil => intro e; rfl
  | cons h t =>
      intro e
      simp [emitKids, mapActsK, runActs_append, emitString_map h, emitKids_map t]

end

theorem stripL_append (a b : List Char) : stripL (a ++ b) = stripL a ++ stripL b :=
  List.filter_append _ _

theorem stripL_spaces {g : String} (h : allSpaces g = true) : stripL g.data = [] := by
  refine List.filter_eq_nil_iff.mpr ?_
  intro c hc
  have := (List.all_eq_true.mp h) c hc
  simp only [decide_eq_true_eq] at this
  simp [this]

theorem stripL_nospace {v : List Char} (h : v.all (fun c => !(c = ' ')) = true) :
    stripL v = v := by
  refine List.filter_eq_self.mpr ?_
  intro c hc
  exact (List.all_eq_true.mp h) c hc

/-- One advance step of the emitter at a tracked position. -/
theorem advance_step {src : List Char} {p : Nat} {g : String} {tk : Tok}
    (h1 : tk.colm = p + g.length + 1) (h2 : tk.ecol = tk.colm + tk.v.length)
    (h3 : (src.drop p).take (g.length + tk.v.length) = g.data ++ tk.v.data)
    (sv : List Char) :
    StringEmit.advance ⟨⟨src⟩, ⟨sv⟩, (p : Int)⟩ tk
      = ⟨⟨src⟩, ⟨sv ++ g.data ++ tk.v.data⟩,
          ((p + g.length + tk.v.length : Nat) : Int)⟩ := by
  have hgl : g.data.length = g.length := rfl
  have hvl : tk.v.data.length = tk.v.length := rfl
  have hgap : (src.drop p).take g.length = g.data := by
    have h5 := congrArg (List.take g.length) h3
    rw [List.take_take] at h5
    rw [Nat.min_def, if_pos (by omega)] at h5
    rw [h5, ← hgl, List.take_left]
  refine emitExt rfl ?_ ?_
  · show (if (if (0 : Int) ≤ (p : Int) then (p : Int) else ((tk.colm : Int) - 1))
          < (tk.colm : Int) - 1 then
            String.mk sv ++ pySlice ⟨src⟩
              (if (0 : Int) ≤ (p : Int) then (p : Int) else ((tk.colm : Int) - 1)).toNat
              ((tk.colm : Int) - 1).toNat
          else String.mk sv) ++ tk.v
        = String.mk (sv ++ g.data ++ tk.v.data)
    rw [if_pos (Int.natCast_nonneg p)]
    by_cases hg : 0 < g.length
    · rw [if_pos (by rw [h1]; push_cast; omega)]
      refine strExt ?_
      have hc1 : ((p : Int)).toNat = p := by omega
      have hc2 : ((tk.colm : Int) - 1).toNat = p + g.length := by
        rw [h1]; omega
      simp only [pySlice, hc1, hc2, strDataApp]
      rw [show p + g.length - p = g.length by omega, hgap]
    · rw [if_neg (by rw [h1]; push_cast; omega)]
      refine strExt ?_
      have hgd : g.data = [] := by
        refine List.length_eq_zero.mp ?_
        omega
      simp only [strDataApp, hgd]
      simp
  · show (tk.ecol : Int) - 1 = ((p + g.length + tk.v.length : Nat) : Int)
    rw [h2, h1]; push_cast; omega

/-- One advance step of the emitter with an untracked cursor. -/
theorem advance_step_neg {src : List Char} {p : Nat} {g : String} {tk : Tok}
    (h1 : tk.colm = p + g.length + 1) (h2 : tk.ecol = tk.colm + tk.v.length)
    (sv : List Char) :
    StringEmit.advance ⟨⟨src⟩, ⟨sv⟩, -1⟩ tk
      = ⟨⟨src⟩, ⟨sv ++ tk.v.data⟩,
          ((p + g.length + tk.v.length : Nat) : Int)⟩ := by
  refine emitExt rfl ?_ ?_
  · show (if (if (0 : Int) ≤ -1 then (-1 : Int) else ((tk.colm : Int) - 1))
          < (tk.colm : Int) - 1 then _ else String.mk sv) ++ tk.v
        = String.mk (sv ++ tk.v.data)
    rw [if_neg (show ¬ ((0 : Int) ≤ -1) by omega), if_neg (by omega)]
    exact strExt rfl
  · show (tk.ecol : Int) - 1 = ((p + g.length + tk.v.length : Nat) : Int)
    rw [h2, h1]; push_cast; omega

theorem ActTiles.seqa {src : List Char} {p acts1 m acts2 q}
    (h1 : ActTiles src p acts1 m) (h2 : ActTiles src m acts2 q) :
    ActTiles src p (acts1 ++ acts2) q := by
  induction h1 with
  | nil => simpa using h2
  | adv p g tk acts m ha hb hc hd he hf ih =>
      exact ActTiles.adv _ _ _ _ _ ha hb hc hd he (ih h2)
  | skip p m' acts m ha hb ih =>
      exact ActTiles.skip _ _ _ _ ha (ih h2)

theorem ActTiles.widena {src ext : List Char} {p acts q}
    (h : ActTiles src p acts q) : ActTiles (src ++ ext) p acts q := by
  induction h with
  | nil => exact ActTiles.nil _
  | adv p g tk acts q ha hb hc hd he hf ih =>
      refine ActTiles.adv _ _ _ _ _ ha hb hc hd ?_ ih
      have hlen : g.length + tk.v.length ≤ (src.drop p).length := by
        have h5 := congrArg List.length he
        simp only [List.length_take, List.length_append] at h5
        have hgd : g.data.length = g.length := rfl
        have hvd : tk.v.data.length = tk.v.length := rfl
        omega
      rw [List.drop_append_eq_append_drop,
        List.take_append_of_le_length hlen, he]
  | skip p m acts q ha hb ih =>
      exact ActTiles.skip _ _ _ _ ha ih

/-- Running the actions of an action tiling appends exactly the kept
token text, up to spaces. -/
theorem runActs_strip {src : List Char} {p acts q}
    (h : ActTiles src p acts q) :
    ∀ (sv : List Char) (pos : Int), (pos = -1 ∨ pos = (p : Int)) →
      stripL (runActs acts ⟨⟨src⟩, ⟨sv⟩, pos⟩).sval.data
        = stripL sv ++ advVals acts := by
  induction h with
  | nil p =>
      intro sv pos hpos
      simp [runActs, advVals]
  | adv p g tk acts q ha hb hc hd he hf ih =>
      intro sv pos hpos
      rcases hpos with hpos | hpos
      · subst hpos
        show stripL (runActs acts (StringEmit.advance ⟨⟨src⟩, ⟨sv⟩, -1⟩ tk)).sval.data = _
        rw [advance_step_neg hc hd]
        rw [ih (sv ++ tk.v.data) _ (Or.inr rfl)]
        rw [stripL_append, stripL_nospace hb, advVals]
        simp [List.append_assoc]
      · subst hpos
        show stripL (runActs acts (StringEmit.advance ⟨⟨src⟩, ⟨sv⟩, (p : Int)⟩ tk)).sval.data = _
        rw [advance_step hc hd he]
        rw [ih (sv ++ g.data ++ tk.v.data) _ (Or.inr rfl)]
        rw [stripL_append, stripL_append, stripL_spaces ha, stripL_nospace hb, advVals]
        simp [List.append_assoc]
  | skip p m acts q ha hb ih =>
      intro sv pos hpos
      rcases hpos with hpos | hpos
      · subst hpos
        show stripL (runActs acts ⟨⟨src⟩, ⟨sv⟩,
            if (0 : Int) ≤ -1 then (m : Int) else -1⟩).sval.data = _
        rw [if_neg (show ¬ ((0 : Int) ≤ -1) by omega)]
        rw [ih sv _ (Or.inl rfl), advVals]
      · subst hpos
        show stripL (runActs acts ⟨⟨src⟩, ⟨sv⟩,
            if (0 : Int) ≤ (p : Int) then (m : Int) else -1⟩).sval.data = _
        rw [if_pos (Int.natCast_nonneg p)]
        rw [ih sv _ (Or.inr rfl), advVals]

/- ## Builder action chunks -/

theorem pushTok_tt (tt v : String) (s : BSt) : (pushTok tt v s).1.tt = tt := by
  obtain ⟨p, gaps, o⟩ := s; cases gaps <;> rfl

theorem pushTok_v (tt v : String) (s : BSt) : (pushTok tt v s).1.v = v := by
  obtain ⟨p, gaps, o⟩ := s; cases gaps <;> rfl

theorem pushTok_gaps (tt v : String) (s : BSt) :
    (pushTok tt v s).2.gaps = s.gaps.tail := by
  obtain ⟨p, gaps, o⟩ := s; cases gaps <;> rfl

theorem pushTok_out (tt v : String) (s : BSt) :
    (pushTok tt v s).2.out.data
      = s.out.data ++ ((s.gaps.headD "").data ++ v.data) := by
  obtain ⟨p, gaps, o⟩ := s
  cases gaps <;> simp [pushTok, takeGap, strDataApp, List.append_assoc]

theorem pushTok_pos_le (tt v : String) (s : BSt) :
    s.pos ≤ (pushTok tt v s).2.pos := by
  obtain ⟨p, gaps, o⟩ := s
  cases gaps with
  | nil =>
      show p ≤ p + String.length "" + v.length
      omega
  | cons g gs =>
      show p ≤ p + g.length + v.length
      omega

theorem pushTok_ecol (tt v : String) (s : BSt) :
    ((pushTok tt v s).1.ecol : Int) - 1 = (((pushTok tt v s).2.pos : Nat) : Int) := by
  obtain ⟨p, gaps, o⟩ := s
  cases gaps with
  | nil =>
      show ((p + String.length "" + v.length + 1 : Nat) : Int) - 1
        = ((p + String.length "" + v.length : Nat) : Int)
      push_cast; omega
  | cons g gs =>
      show ((p + g.length + v.length + 1 : Nat) : Int) - 1
        = ((p + g.length + v.length : Nat) : Int)
      push_cast; omega

theorem spaceLayout_head {l : List String} (h : spaceLayout l = true) :
    allSpaces (l.headD "") = true := by
  cases l with
  | nil => decide
  | cons g gs => exact (List.all_eq_true.mp h) g (by simp)

theorem spaceLayout_tail {l : List String} (h : spaceLayout l = true) :
    spaceLayout l.tail = true := by
  cases l with
  | nil => exact h
  | cons g gs =>
      simp only [spaceLayout, List.all_cons, Bool.and_eq_true] at h
      exact h.2

theorem ActChunk.seqk {s m r : BSt} {acts1 acts2 : List Act}
    (h1 : ActChunk s m acts1) (h2 : ActChunk m r acts2) :
    ActChunk s r (acts1 ++ acts2) := by
  obtain ⟨t1, i1, ⟨e1, x1⟩, g1⟩ := h1
  obtain ⟨t2, i2, ⟨e2, x2⟩, g2⟩ := h2
  refine ⟨?_, i2, ⟨e1 ++ e2, ?_⟩, g2⟩
  · have t1' : ActTiles r.out.data s.pos acts1 m.pos := by
      rw [x2]
      exact t1.widena
    exact t1'.seqa t2
  · rw [x2, x1, List.append_assoc]

/-- Pushing a token with space-free text yields an advance chunk. -/
theorem actAdv (tt v : String) (s : BSt) (hs : s.pos = s.out.data.length)
    (hg : spaceLayout s.gaps = true)
    (hv : v.data.all (fun c => !(c = ' ')) = true) :
    ActChunk s (pushTok tt v s).2 [Act.adv (pushTok tt v s).1] := by
  obtain ⟨T, hinv, hgaps, hout⟩ := pushTok_tiles tt v s hs
  cases T with
  | cons _ _ _ _ _ _ h1 h2 h3 h4 =>
      have hq := h4.eq_of_nil
      refine ⟨?_, hinv, ⟨(s.gaps.headD "").data ++ v.data, pushTok_out tt v s⟩,
        by rw [pushTok_gaps]; exact spaceLayout_tail hg⟩
      have hv' : (pushTok tt v s).1.v.data.all (fun c => !(c = ' ')) = true := by
        rw [pushTok_v]; exact hv
      rw [← hq]
      exact ActTiles.adv _ _ _ _ _ (spaceLayout_head hg) hv' h1 h2 h3 (ActTiles.nil _)

/-- Pushing any token and skipping to its end yields a skip chunk. -/
theorem actSkipTok (tt v : String) (s : BSt) (hs : s.pos = s.out.data.length)
    (hg : spaceLayout s.gaps = true) :
    ActChunk s (pushTok tt v s).2
      [Act.skipTo (((pushTok tt v s).1.ecol : Int) - 1)] := by
  obtain ⟨T, hinv, hgaps, hout⟩ := pushTok_tiles tt v s hs
  refine ⟨?_, hinv, ⟨(s.gaps.headD "").data ++ v.data, pushTok_out tt v s⟩,
    by rw [pushTok_gaps]; exact spaceLayout_tail hg⟩
  rw [pushTok_ecol]
  exact ActTiles.skip _ _ _ _ (pushTok_pos_le tt v s) (ActTiles.nil _)

/-- Two consecutive pushed tokens skipped as one unit (a default-value
subtree) yield a skip chunk to the second token end. -/
theorem actSkipTwo (t1 v1 t2 v2 : String) (s : BSt)
    (hs : s.pos = s.out.data.length) (hg : spaceLayout s.gaps = true) :
    ActChunk s (pushTok t2 v2 (pushTok t1 v1 s).2).2
      [Act.skipTo (((pushTok t2 v2 (pushTok t1 v1 s).2).1.ecol : Int) - 1)] := by
  obtain ⟨T1, hinv1, hgaps1, hout1⟩ := pushTok_tiles t1 v1 s hs
  obtain ⟨T2, hinv2, hgaps2, hout2⟩ := pushTok_tiles t2 v2 (pushTok t1 v1 s).2 hinv1
  refine ⟨?_, hinv2, ?_, ?_⟩
  · rw [pushTok_ecol]
    refine ActTiles.skip _ _ _ _ ?_ (ActTiles.nil _)
    exact le_trans (pushTok_pos_le t1 v1 s) (pushTok_pos_le t2 v2 _)
  · refine ⟨((s.gaps.headD "").data ++ v1.data)
      ++ (((pushTok t1 v1 s).2.gaps.headD "").data ++ v2.data), ?_⟩
    rw [pushTok_out t2 v2 _, pushTok_out t1 v1 s, List.append_assoc]
  · rw [pushTok_gaps, pushTok_gaps]
    exact spaceLayout_tail (spaceLayout_tail hg)

theorem tname_nospace {n : String} (h : tnameOK n = true) :
    n.data.all (fun c => !(c = ' ')) = true := by
  simp only [tnameOK, Bool.and_eq_true] at h
  refine List.all_eq_true.mpr ?_
  intro c hc
  have hch := List.all_eq_true.mp h.2 c hc
  by_cases hsp : c = ' '
  · subst hsp; exact absurd hch (by decide)
  · simp [hsp]

theorem cname_nospace {n : String} (h : cnameOK n = true) :
    n.data.all (fun c => !(c = ' ')) = true := by
  cases hd : n.data with
  | nil => simp
  | cons c r =>
      simp only [cnameOK, hd, Bool.and_eq_true] at h
      refine List.all_eq_true.mpr ?_
      intro x hx
      rcases List.mem_cons.mp hx with hx | hx
      · subst hx
        by_cases hsp : x = ' '
        · subst hsp; exact absurd h.1 (by decide)
        · simp [hsp]
      · have hw := List.all_eq_true.mp h.2 x hx
        by_cases hsp : x = ' '
        · subst hsp; exact absurd hw (by decide)
        · simp [hsp]

mutual

theorem actCore_chunk (c : CoreT) : ∀ s : BSt, s.pos = s.out.data.length →
    spaceLayout s.gaps = true → coreNamesOK c = true →
    ActChunk s (buildCore c s).2 (mapActs (buildCore c s).1)
    ∧ advVals (mapActs (buildCore c s).1) = (coreKey c).data := by
  cases c with
  | plain n =>
      intro s hs hg hn
      have hn' : n.data.all (fun x => !(x = ' ')) = true :=
        tname_nospace (by simpa [coreNamesOK] using hn)
      have c1 := actAdv "TNAME" n s hs hg hn'
      constructor
      · simpa [buildCore, mapActs, mapActsK, mapSigEmitFn, pushTok_tt] using c1
      · simp [buildCore, mapActs, mapActsK, mapSigEmitFn, pushTok_tt, advVals,
          pushTok_v, coreKey]
  | tmpl n args =>
      intro s hs hg hn
      have hn2 := (Bool.and_eq_true _ _).mp (by simpa [coreNamesOK] using hn)
      have hn' : n.data.all (fun x => !(x = ' ')) = true := tname_nospace hn2.1
      have c1 := actAdv "TNAME" n s hs hg hn'
      have c2 := actAdv "LT" "<" (pushTok "TNAME" n s).2 c1.2.1 c1.2.2.2 (by decide)
      have c3 := actTyList_chunk args
        (pushTok "LT" "<" (pushTok "TNAME" n s).2).2 c2.2.1 c2.2.2.2 hn2.2
      have c4 := actAdv "GT" ">"
        (buildTyList args (pushTok "LT" "<" (pushTok "TNAME" n s).2).2).2
        c3.1.2.1 c3.1.2.2.2 (by decide)
      have hch := ((c1.seqk c2).seqk c3.1).seqk c4
      constructor
      · simpa [buildCore, mapActs, mapActsK, mapSigEmitFn, pushTok_tt,
          List.append_assoc] using hch
      · simp [buildCore, mapActs, mapActsK, mapSigEmitFn, pushTok_tt,
          advVals_append, advVals, pushTok_v, c3.2, coreKey, strDataApp,
          List.append_assoc]

theorem actTy_chunk (t : TyX) : ∀ s : BSt, s.pos = s.out.data.length →
    spaceLayout s.gaps = true → tyNamesOK t = true →
    ActChunk s (buildTy t s).2 (mapActs (buildTy t s).1)
    ∧ advVals (mapActs (buildTy t s).1) = (tyKey t).data := by
  cases t with
  | mk c core r =>
      intro s hs hg hn
      have hn0 : coreNamesOK core = true := by simpa [tyNamesOK] using hn
      cases c with
      | false =>
          have c2 := actCore_chunk core s hs hg hn0
          cases r with
          | none =>
              constructor
              · simpa [buildTy, Kids.ofList, mapActs, mapActsK, mapSigEmitFn]
                  using c2.1
              · simpa [buildTy, Kids.ofList, mapActs, mapActsK, mapSigEmitFn,
                  advVals_append, tyKey] using c2.2
          | some rk =>
              cases rk with
              | amp =>
                  have c3 := actSkipTok "REF" "&" (buildCore core s).2
                    c2.1.2.1 c2.1.2.2.2
                  have hch := c2.1.seqk c3
                  constructor
                  · simpa [buildTy, Kids.ofList, mapActs, mapActsK, mapSigEmitFn,
                      pushTok_tt, lastMatch, lastMatchK, List.append_assoc] using hch
                  · simp [buildTy, Kids.ofList, mapActs, mapActsK, mapSigEmitFn,
                      pushTok_tt, lastMatch, lastMatchK, advVals_append, advVals,
                      c2.2, tyKey]
              | star =>
                  have c3 := actSkipTok "PTR" "*" (buildCore core s).2
                    c2.1.2.1 c2.1.2.2.2
                  have hch := c2.1.seqk c3
                  constructor
                  · simpa [buildTy, Kids.ofList, mapActs, mapActsK, mapSigEmitFn,
                      pushTok_tt, lastMatch, lastMatchK, List.append_assoc] using hch
                  · simp [buildTy, Kids.ofList, mapActs, mapActsK, mapSigEmitFn,
                      pushTok_tt, lastMatch, lastMatchK, advVals_append, advVals,
                      c2.2, tyKey]
      | true =>
          have c1 := actSkipTok "CONST" "const" s hs hg
          have c2 := actCore_chunk core (pushTok "CONST" "const" s).2
            c1.2.1 c1.2.2.2 hn0
          cases r with
          | none =>
              have hch := c1.seqk c2.1
              constructor
              · simpa [buildTy, Kids.ofList, mapActs, mapActsK, mapSigEmitFn,
                  pushTok_tt, lastMatch, lastMatchK, List.append_assoc] using hch
              · simp [buildTy, Kids.ofList, mapActs, mapActsK, mapSigEmitFn,
                  pushTok_tt, lastMatch, lastMatchK, advVals_append, advVals,
                  c2.2, tyKey]
          | some rk =>
              cases rk with
              | amp =>
                  have c3 := actSkipTok "REF" "&"
                    (buildCore core (pushTok "CONST" "const" s).2).2
                    c2.1.2.1 c2.1.2.2.2
                  have hch := (c1.seqk c2.1).seqk c3
                  constructor
                  · simpa [buildTy, Kids.ofList, mapActs, mapActsK, mapSigEmitFn,
                      pushTok_tt, lastMatch, lastMatchK, List.append_assoc] using hch
                  · simp [buildTy, Kids.ofList, mapActs, mapActsK, mapSigEmitFn,
                      pushTok_tt, lastMatch, lastMatchK, advVals_append, advVals,
                      c2.2, tyKey]
              | star =>
                  have c3 := actSkipTok "PTR" "*"
                    (buildCore core (pushTok "CONST" "const" s).2).2
                    c2.1.2.1 c2.1.2.2.2
                  have hch := (c1.seqk c2.1).seqk c3
                  constructor
                  · simpa [buildTy, Kids.ofList, mapActs, mapActsK, mapSigEmitFn,
                      pushTok_tt, lastMatch, lastMatchK, List.append_assoc] using hch
                  · simp [buildTy, Kids.ofList, mapActs, mapActsK, mapSigEmitFn,
                      pushTok_tt, lastMatch, lastMatchK, advVals_append, advVals,
                      c2.2, tyKey]

theorem actTyList_chunk (l : TyList) : ∀ s : BSt, s.pos = s.out.data.length →
    spaceLayout s.gaps = true → tyListNamesOK l = true →
    ActChunk s (buildTyList l s).2 (mapActs (buildTyList l s).1)
    ∧ advVals (mapActs (buildTyList l s).1) = (tyListKey l).data := by
  cases l with
  | single t =>
      intro s hs hg hn
      have c1 := actTy_chunk t s hs hg (by simpa [tyListNamesOK] using hn)
      constructor
      · simpa [buildTyList, mapActs, mapActsK, mapSigEmitFn] using c1.1
      · simpa [buildTyList, mapActs, mapActsK, mapSigEmitFn, advVals_append,
          advVals, tyListKey] using c1.2
  | cons t rest =>
      intro s hs hg hn
      have hn2 := (Bool.and_eq_true _ _).mp (by simpa [tyListNamesOK] using hn)
      have c1 := actTy_chunk t s hs hg hn2.1
      have c2 := actAdv "COMMA" "," (buildTy t s).2 c1.1.2.1 c1.1.2.2.2 (by decide)
      have c3 := actTyList_chunk rest (pushTok "COMMA" "," (buildTy t s).2).2
        c2.2.1 c2.2.2.2 hn2.2
      have hch := (c1.1.seqk c2).seqk c3.1
      constructor
      · simpa [buildTyList, mapActs, mapActsK, mapSigEmitFn, pushTok_tt,
          List.append_assoc] using hch
      · simp [buildTyList, mapActs, mapActsK, mapSigEmitFn, pushTok_tt,
          advVals_append, advVals, pushTok_v, c1.2, c3.2, tyListKey, strDataApp,
          List.append_assoc]

end

theorem actParam_chunk (p : ParamX) (s : BSt) (hs : s.pos = s.out.data.length)
    (hg : spaceLayout s.gaps = true) (hn : paramNamesOK p = true) :
    ActChunk s (buildParam p s).2 (mapActs (buildParam p s).1)
    ∧ advVals (mapActs (buildParam p s).1) = (tyKey p.ty).data := by
  obtain ⟨ty, nm, dv⟩ := p
  simp only [paramNamesOK, Bool.and_eq_true] at hn
  have c1 := actTy_chunk ty s hs hg hn.1.1
  have c2 := actSkipTok "CNAME" nm (buildTy ty s).2 c1.1.2.1 c1.1.2.2.2
  cases dv with
  | none =>
      have hch := c1.1.seqk c2
      constructor
      · simpa [buildParam, mapActs, mapActsK, mapSigEmitFn, pushTok_tt,
          lastMatch, lastMatchK, List.append_assoc] using hch
      · simp [buildParam, mapActs, mapActsK, mapSigEmitFn, pushTok_tt,
          lastMatch, lastMatchK, advVals_append, advVals, c1.2]
  | some v =>
      have c3 := actSkipTwo "EQ" "=" (litType v) v
        (pushTok "CNAME" nm (buildTy ty s).2).2 c2.2.1 c2.2.2.2
      have hch := (c1.1.seqk c2).seqk c3
      constructor
      · simpa [buildParam, mapActs, mapActsK, mapSigEmitFn, pushTok_tt,
          lastMatch, lastMatchK, List.append_assoc] using hch
      · simp [buildParam, mapActs, mapActsK, mapSigEmitFn, pushTok_tt,
          lastMatch, lastMatchK, advVals_append, advVals, c1.2]

theorem actParams_chunk (ps : ParamsX) : ∀ s : BSt, s.pos = s.out.data.length →
    spaceLayout s.gaps = true → paramsNamesOK ps = true →
    ActChunk s (buildParams ps s).2 (mapActs (buildParams ps s).1)
    ∧ advVals (mapActs (buildParams ps s).1) = (paramsKey ps).data := by
  induction ps with
  | single p =>
      intro s hs hg hn
      have c1 := actParam_chunk p s hs hg (by simpa [paramsNamesOK] using hn)
      constructor
      · simpa [buildParams, mapActs, mapActsK, mapSigEmitFn] using c1.1
      · simpa [buildParams, mapActs, mapActsK, mapSigEmitFn, advVals_append,
          advVals, paramsKey] using c1.2
  | cons p rest ih =>
      intro s hs hg hn
      have hn2 := (Bool.and_eq_true _ _).mp (by simpa [paramsNamesOK] using hn)
      have c1 := actParam_chunk p s hs hg hn2.1
      have c2 := actAdv "COMMA" "," (buildParam p s).2 c1.1.2.1 c1.1.2.2.2
        (by decide)
      have c3 := ih (pushTok "COMMA" "," (buildParam p s).2).2
        c2.2.1 c2.2.2.2 hn2.2
      have hch := (c1.1.seqk c2).seqk c3.1
      constructor
      · simpa [buildParams, mapActs, mapActsK, mapSigEmitFn, pushTok_tt,
          List.append_assoc] using hch
      · simp [buildParams, mapActs, mapActsK, mapSigEmitFn, pushTok_tt,
          advVals_append, advVals, pushTok_v, c1.2, c3.2, paramsKey, strDataApp,
          List.append_assoc]

/- ## The map-key bridge -/

theorem runActs_sref (acts : List Act) (e : StringEmit) :
    (runActs acts e).sref = e.sref := by
  induction acts generalizing e with
  | nil => rfl
  | cons x r ih =>
      cases x with
      | adv tk => rw [runActs, ih]; rfl
      | skipTo m => rw [runActs, ih]

theorem ext_trans {a b c : List Char} (h1 : ∃ x, b = a ++ x)
    (h2 : ∃ y, c = b ++ y) : ∃ z, c = a ++ z := by
  obtain ⟨x, hx⟩ := h1
  obtain ⟨y, hy⟩ := h2
  exact ⟨x ++ y, by rw [hy, hx, List.append_assoc]⟩

/-- The canonical map key computed through the span emitter agrees with
the structural map key, for any space-gapped layout. -/
theorem mapkey_bridge (sg : SigX) (layout : List String)
    (hn : sigNamesOK sg = true) (hsp : spaceLayout layout = true) :
    get_mapsig_key (create_map_sig (vtreeOf sg layout) (renderSig sg layout))
      = mapKeyPure sg := by
  have hnn : tyNamesOK sg.ret = true ∧ cnameOK sg.fname = true
      ∧ paramsNamesOK sg.params = true := by
    simpa [sigNamesOK, Bool.and_eq_true, and_assoc] using hn
  have cR := actTy_chunk sg.ret (initBSt layout) rfl hsp hnn.1
  have cF := actAdv "CNAME" sg.fname (stR sg layout)
    cR.1.2.1 cR.1.2.2.2 (cname_nospace hnn.2.1)
  have iF : (stF sg layout).pos = (stF sg layout).out.data.length :=
    (pushTok_tiles "CNAME" sg.fname (stR sg layout) cR.1.2.1).2.1
  have gF : spaceLayout (stF sg layout).gaps = true := by
    show spaceLayout (pushTok "CNAME" sg.fname (stR sg layout)).2.gaps = true
    rw [pushTok_gaps]
    exact spaceLayout_tail cR.1.2.2.2
  have iL : (stL sg layout).pos = (stL sg layout).out.data.length :=
    (pushTok_tiles "LPAR" "(" (stF sg layout) iF).2.1
  have gL : spaceLayout (stL sg layout).gaps = true := by
    show spaceLayout (pushTok "LPAR" "(" (stF sg layout)).2.gaps = true
    rw [pushTok_gaps]
    exact spaceLayout_tail gF
  have cP := actParams_chunk sg.params (stL sg layout) iL gL hnn.2.2
  -- every region output is a prefix of the final source
  have extP : ∃ e, (renderSig sg layout).data = (stP sg layout).out.data ++ e :=
    ⟨_, pushTok_out "RPAR" ")" (stP sg layout)⟩
  have extL : ∃ e, (renderSig sg layout).data = (stL sg layout).out.data ++ e :=
    ext_trans cP.1.2.2.1 extP
  have extF : ∃ e, (renderSig sg layout).data = (stF sg layout).out.data ++ e :=
    ext_trans ⟨_, pushTok_out "LPAR" "(" (stF sg layout)⟩ extL
  have extR : ∃ e, (renderSig sg layout).data = (stR sg layout).out.data ++ e :=
    ext_trans ⟨_, pushTok_out "CNAME" sg.fname (stR sg layout)⟩ extF
  -- action tilings over the final source
  have TR : ActTiles (renderSig sg layout).data (initBSt layout).pos
      (mapActs (buildTy sg.ret (initBSt layout)).1) (stR sg layout).pos := by
    obtain ⟨e, he⟩ := extR
    rw [he]
    exact cR.1.1.widena
  have TF : ActTiles (renderSig sg layout).data (stR sg layout).pos
      [Act.adv (pushTok "CNAME" sg.fname (stR sg layout)).1] (stF sg layout).pos := by
    obtain ⟨e, he⟩ := extF
    rw [he]
    exact cF.1.widena
  have TP : ActTiles (renderSig sg layout).data (stL sg layout).pos
      (mapActs (buildParams sg.params (stL sg layout)).1) (stP sg layout).pos := by
    obtain ⟨e, he⟩ := extP
    rw [he]
    exact cP.1.1.widena
  -- the three children of the start tree
  have hc0 : typed_child (vtreeOf sg layout) 0 = (buildTy sg.ret (initBSt layout)).1 := by
    simp [vtreeOf, buildSig, typed_child, Kids.toList]
  have hc1 : typed_child (vtreeOf sg layout) 1
      = PTree.node "fnname" (Kids.cons
          (PTree.tok (pushTok "CNAME" sg.fname (stR sg layout)).1) Kids.nil) := by
    simp [vtreeOf, buildSig, typed_child, Kids.toList, stR]
  have hc3 : typed_child (vtreeOf sg layout) 3
      = (buildParams sg.params (stL sg layout)).1 := by
    simp [vtreeOf, buildSig, typed_child, Kids.toList, stR, stF, stL]
  have hactsF : mapActs (PTree.node "fnname" (Kids.cons
      (PTree.tok (pushTok "CNAME" sg.fname (stR sg layout)).1) Kids.nil))
      = [Act.adv (pushTok "CNAME" sg.fname (stR sg layout)).1] := by
    simp [mapActs, mapActsK, mapSigEmitFn, pushTok_tt]
  -- the emission chain
  have hkey : create_map_sig (vtreeOf sg layout) (renderSig sg layout)
      = (emitString mapSigEmitFn (typed_child (vtreeOf sg layout) 0)
          ((emitString mapSigEmitFn (typed_child (vtreeOf sg layout) 3)
            ((emitString mapSigEmitFn (typed_child (vtreeOf sg layout) 1)
              ⟨renderSig sg layout, "", -1⟩).append "(")).append ") -> ")).sval := rfl
  rw [hkey, hc0, hc1, hc3, emitString_map, emitString_map, emitString_map, hactsF]
  set e1 : StringEmit := runActs [Act.adv (pushTok "CNAME" sg.fname (stR sg layout)).1]
    ⟨renderSig sg layout, "", -1⟩ with he1
  have s1 : stripL e1.sval.data = sg.fname.data := by
    rw [he1]
    have := runActs_strip TF [] (-1) (Or.inl rfl)
    rw [show (⟨renderSig sg layout, "", -1⟩ : StringEmit)
      = ⟨⟨(renderSig sg layout).data⟩, ⟨[]⟩, -1⟩ from rfl]
    rw [this]
    simp [advVals, stripL, pushTok_v]
  have r1 : e1.sref = renderSig sg layout := by
    rw [he1, runActs_sref]
  set e2 : StringEmit := e1.append "(" with he2
  have h2 : e2 = ⟨⟨(renderSig sg layout).data⟩, ⟨e1.sval.data ++ "(".data⟩, -1⟩ := by
    rw [he2]
    refine emitExt ?_ ?_ rfl
    · show e1.sref = _
      rw [r1]
    · exact strExt rfl
  set e3 : StringEmit := runActs (mapActs (buildParams sg.params (stL sg layout)).1) e2
    with he3
  have s3 : stripL e3.sval.data
      = sg.fname.data ++ "(".data ++ (paramsKey sg.params).data := by
    rw [he3, h2]
    rw [runActs_strip TP _ (-1) (Or.inl rfl)]
    rw [stripL_append, s1, cP.2]
    have : stripL "(".data = "(".data := rfl
    rw [this]
  have r3 : e3.sref = renderSig sg layout := by
    rw [he3, runActs_sref, h2]
  set e4 : StringEmit := e3.append ") -> " with he4
  have h4 : e4 = ⟨⟨(renderSig sg layout).data⟩, ⟨e3.sval.data ++ ") -> ".data⟩, -1⟩ := by
    rw [he4]
    refine emitExt ?_ ?_ rfl
    · show e3.sref = _
      rw [r3]
    · exact strExt rfl
  have s5 : stripL (runActs (mapActs (buildTy sg.ret (initBSt layout)).1) e4).sval.data
      = sg.fname.data ++ "(".data ++ (paramsKey sg.params).data
        ++ ")->".data ++ (tyKey sg.ret).data := by
    rw [h4]
    rw [runActs_strip TR _ (-1) (Or.inl rfl)]
    rw [stripL_append, s3, cR.2]
    have : stripL (") -> ".data) = ")->".data := rfl
    rw [this]
  refine strExt ?_
  show stripL (runActs (mapActs (buildTy sg.ret (initBSt layout)).1) e4).sval.data
    = (mapKeyPure sg).data
  rw [s5]
  show _ = (sg.fname ++ "(" ++ paramsKey sg.params ++ ")->" ++ tyKey sg.ret).data
  simp [strDataApp, List.append_assoc]

theorem strAppNil (a : String) : a ++ "" = a := by
  refine strExt ?_
  rw [strDataApp]
  simp [show ("" : String).data = [] from rfl]

theorem tyKey_core (t : TyX) : tyKey t = coreKey t.core := by
  cases t; rfl

theorem tyKey_withCore (t : TyX) (c : CoreT) : tyKey (t.withCore c) = coreKey c := by
  cases t; rfl

theorem coreKey_decomp (c : CoreT) : coreKey c = c.headName ++ tailKey c := by
  cases c with
  | plain n => rw [CoreT.headName, tailKey, strAppNil]; rfl
  | tmpl n a =>
      rw [CoreT.headName, tailKey, coreKey]
      refine strExt ?_
      simp [strDataApp, List.append_assoc]

theorem renameHead_key (c : CoreT) (n : String) :
    coreKey (renameHead c n) = n ++ tailKey c := by
  cases c with
  | plain m => rw [renameHead, tailKey, strAppNil]; rfl
  | tmpl m a =>
      rw [renameHead, tailKey, coreKey]
      refine strExt ?_
      simp [strDataApp, List.append_assoc]

/-- The parameter key splits around any given parameter position. -/
theorem paramsKey_split : ∀ (ps : ParamsX) (i : Nat) (c : CoreT),
    paramCoreAt ps i = some c →
    ∃ P S : String, paramsKey ps = P ++ (coreKey c ++ S)
      ∧ ∀ n, paramsKey (renameAt ps i n) = P ++ (coreKey (renameHead c n) ++ S) := by
  intro ps
  induction ps with
  | single p =>
      intro i c hc
      cases i with
      | zero =>
          rw [paramCoreAt] at hc
          injection hc with hc
          subst hc
          refine ⟨"", "", ?_, ?_⟩
          · rw [paramsKey, tyKey_core, strAppNil]
            rfl
          · intro n
            rw [renameAt, paramsKey, tyKey_withCore, strAppNil]
            rfl
      | succ j =>
          rw [paramCoreAt] at hc
          cases hc
  | cons p r ih =>
      intro i c hc
      cases i with
      | zero =>
          rw [paramCoreAt] at hc
          injection hc with hc
          subst hc
          refine ⟨"", "," ++ paramsKey r, ?_, ?_⟩
          · rw [paramsKey, tyKey_core]
            refine strExt ?_
            simp [strDataApp, List.append_assoc,
              show ("" : String).data = [] from rfl]
          · intro n
            rw [renameAt, paramsKey, tyKey_withCore]
            refine strExt ?_
            simp [strDataApp, List.append_assoc,
              show ("" : String).data = [] from rfl]
      | succ j =>
          rw [paramCoreAt] at hc
          obtain ⟨P, S, h1, h2⟩ := ih j c hc
          refine ⟨tyKey p.ty ++ "," ++ P, S, ?_, ?_⟩
          · rw [paramsKey, h1]
            refine strExt ?_
            simp [strDataApp, List.append_assoc]
          · intro n
            rw [renameAt, paramsKey, h2]
            refine strExt ?_
            simp [strDataApp, List.append_assoc]

/-- The parameter key is a function of the core-type list. -/
theorem paramsKey_coreList : ∀ (ps1 ps2 : ParamsX),
    coreList ps1 = coreList ps2 → paramsKey ps1 = paramsKey ps2 := by
  intro ps1
  induction ps1 with
  | single p =>
      intro ps2 h
      cases ps2 with
      | single q =>
          rw [coreList, coreList] at h
          injection h with h
          rw [paramsKey, paramsKey, tyKey_core, tyKey_core, h]
      | cons q r =>
          rw [coreList, coreList] at h
          injection h with h1 h2
          cases r <;> cases h2
  | cons p r ih =>
      intro ps2 h
      cases ps2 with
      | single q =>
          rw [coreList, coreList] at h
          injection h with h1 h2
          cases r <;> cases h2
      | cons q r2 =>
          rw [coreList, coreList] at h
          injection h with h1 h2
          rw [paramsKey, paramsKey, tyKey_core, tyKey_core, h1, ih r2 h2]

/-- The structural map key depends only on the function name, the
parameter core types and the return core type. -/
theorem mapKeyPure_congr {s1 s2 : SigX} (hf : s1.fname = s2.fname)
    (hp : coreList s1.params = coreList s2.params)
    (hr : s1.ret.core = s2.ret.core) : mapKeyPure s1 = mapKeyPure s2 := by
  rw [mapKeyPure, mapKeyPure, hf, paramsKey_coreList _ _ hp,
    tyKey_core, tyKey_core, hr]

/-- Renaming the head of a parameter core type changes the structural
map key. -/
theorem mapKeyPure_param_ne (sg : SigX) (i : Nat) (c : CoreT) (n : String)
    (hc : paramCoreAt sg.params i = some c) (hne : c.headName ≠ n) :
    mapKeyPure sg ≠ mapKeyPure ⟨sg.ret, sg.fname, renameAt sg.params i n⟩ := by
  obtain ⟨P, S, h1, h2⟩ := paramsKey_split sg.params i c hc
  intro heq
  simp only [mapKeyPure] at heq
  rw [h1, h2 n, renameHead_key c n, coreKey_decomp c] at heq
  have hd := congrArg String.data heq
  simp only [strDataApp, List.append_assoc] at hd
  have hd2 := List.append_cancel_left hd
  have hd3 := List.append_cancel_left hd2
  have hd4 := List.append_cancel_left hd3
  have hlen : c.headName.data.length = n.data.length := by
    have := congrArg List.length hd4
    simp only [List.length_append] at this
    omega
  have := (List.append_inj hd4 hlen).1
  exact hne (strExt this)

/-- Renaming the head of the return core type changes the structural
map key. -/
theorem mapKeyPure_ret_ne (sg : SigX) (n : String)
    (hne : sg.ret.core.headName ≠ n) :
    mapKeyPure sg
      ≠ mapKeyPure ⟨sg.ret.withCore (renameHead sg.ret.core n), sg.fname,
          sg.params⟩ := by
  intro heq
  simp only [mapKeyPure] at heq
  rw [tyKey_withCore sg.ret (renameHead sg.ret.core n), tyKey_core sg.ret,
    renameHead_key sg.ret.core n, coreKey_decomp sg.ret.core] at heq
  have hd := congrArg String.data heq
  simp only [strDataApp, List.append_assoc] at hd
  have hd2 := List.append_cancel_left hd
  have hd3 := List.append_cancel_left hd2
  have hd4 := List.append_cancel_left hd3
  have hd5 := List.append_cancel_left hd4
  have hlen : sg.ret.core.headName.data.length = n.data.length := by
    have := congrArg List.length hd5
    simp only [List.length_append] at this
    omega
  have := (List.append_inj hd5 hlen).1
  exact hne (strExt this)

/- ## Claim C1 -/

/-- C1 (amended): for well-formed signatures rendered with space-only
gaps, the canonical map key (create_map_sig composed with
get_mapsig_key) is unchanged under any change of spacing, parameter
names, default values, and const or reference or pointer qualifiers
that leaves the function name and the core types fixed; and it changes
whenever the head name of the core type of any parameter, or of the
return type, changes.  (The frozen claim said plain whitespace; only
space characters are stripped by get_mapsig_key, so invariance holds
for space gaps and fails for tab gaps.) -/
theorem c1_map_key_canonicalization :
    (∀ (s1 s2 : SigX) (l1 l2 : List String),
      sigNamesOK s1 = true → sigNamesOK s2 = true →
      spaceLayout l1 = true → spaceLayout l2 = true →
      s1.fname = s2.fname → coreList s1.params = coreList s2.params →
      s1.ret.core = s2.ret.core →
      canonKey s1 l1 = canonKey s2 l2)
    ∧ (∀ (sg : SigX) (l1 l2 : List String) (i : Nat) (c : CoreT) (n : String),
      sigNamesOK sg = true →
      sigNamesOK ⟨sg.ret, sg.fname, renameAt sg.params i n⟩ = true →
      spaceLayout l1 = true → spaceLayout l2 = true →
      paramCoreAt sg.params i = some c → c.headName ≠ n →
      canonKey sg l1 ≠ canonKey ⟨sg.ret, sg.fname, renameAt sg.params i n⟩ l2)
    ∧ (∀ (sg : SigX) (l1 l2 : List String) (n : String),
      sigNamesOK sg = true →
      sigNamesOK ⟨sg.ret.withCore (renameHead sg.ret.core n), sg.fname,
        sg.params⟩ = true →
      spaceLayout l1 = true → spaceLayout l2 = true →
      sg.ret.core.headName ≠ n →
      canonKey sg l1
        ≠ canonKey ⟨sg.ret.withCore (renameHead sg.ret.core n), sg.fname,
            sg.params⟩ l2) := by
  refine ⟨?_, ?_, ?_⟩
  · intro s1 s2 l1 l2 hn1 hn2 hl1 hl2 hf hp hr
    show get_mapsig_key _ = get_mapsig_key _
    rw [mapkey_bridge s1 l1 hn1 hl1, mapkey_bridge s2 l2 hn2 hl2]
    exact mapKeyPure_congr hf hp hr
  · intro sg l1 l2 i c n hn1 hn2 hl1 hl2 hc hne
    show get_mapsig_key _ ≠ get_mapsig_key _
    rw [mapkey_bridge sg l1 hn1 hl1, mapkey_bridge _ l2 hn2 hl2]
    exact mapKeyPure_param_ne sg i c n hc hne
  · intro sg l1 l2 n hn1 hn2 hl1 hl2 hne
    show get_mapsig_key _ ≠ get_mapsig_key _
    rw [mapkey_bridge sg l1 hn1 hl1, mapkey_bridge _ l2 hn2 hl2]
    exact mapKeyPure_ret_ne sg n hne

/-- C1 counterexample to the claim as frozen: both layouts are
well-formed whitespace layouts of the same signature, yet a tab gap
survives canonicalization and the canonical map keys differ. -/
theorem c1_whitespace_counterexample :
    sigNamesOK exSig1 = true
    ∧ layoutOK exSig1 exLayout1 = true
    ∧ layoutOK exSig1 exLayoutTab = true
    ∧ canonKey exSig1 exLayout1 ≠ canonKey exSig1 exLayoutTab := by
  decide

/-- C1 witness: the invariance half applied to one concrete pair, a
signature with const and reference qualifiers against its bare
renaming, under different space layouts. -/
theorem c1_witness :
    sigNamesOK exSig1 = true ∧ sigNamesOK exSig2 = true
    ∧ spaceLayout exLayout1 = true ∧ spaceLayout exLayout2 = true
    ∧ canonKey exSig1 exLayout1 = canonKey exSig2 exLayout2 :=
  ⟨by decide, by decide, by decide, by decide,
    c1_map_key_canonicalization.1 exSig1 exSig2 exLayout1 exLayout2
      (by decide) (by decide) (by decide) (by decide) rfl rfl rfl⟩

/- ## Claim C2 -/

/-- C2 (amended): for every well-formed signature, re-emitting the
verbatim parse tree through the span emitter with the identity decision
function reproduces exactly the source string.  (The frozen claim also
asserted this for the reduced tree; the reduced parser drops the
trailing parenthesis token, so its re-emission stops at the last
retained token.) -/
theorem c2_span_emitter_roundtrip (sg : SigX) (layout : List String)
    (h : layoutOK sg layout = true) :
    rewrite_sig (vtreeOf sg layout) (renderSig sg layout) defaultEmitFn
      = renderSig sg layout := by
  have h1 : layout.headD "" = "" := by
    simp only [layoutOK, Bool.and_eq_true, decide_eq_true_eq] at h
    exact h.1.1
  exact roundtrip_verbatim sg layout h1

/-- C2 counterexample to the claim as frozen: on a well-formed
signature, re-emitting the reduced tree with the identity decision
function drops the final parenthesis. -/
theorem c2_reduced_counterexample :
    sigNamesOK exSig1 = true
    ∧ layoutOK exSig1 exLayout1 = true
    ∧ rewrite_sig (rtreeOf exSig1 exLayout1) (renderSig exSig1 exLayout1)
        defaultEmitFn
      ≠ renderSig exSig1 exLayout1 := by
  decide

/-- C2 witness: the verbatim round trip on one concrete signature. -/
theorem c2_witness :
    layoutOK exSig1 exLayout1 = true
    ∧ rewrite_sig (vtreeOf exSig1 exLayout1) (renderSig exSig1 exLayout1)
        defaultEmitFn
      = renderSig exSig1 exLayout1 :=
  ⟨by decide, c2_span_emitter_roundtrip exSig1 exLayout1 (by decide)⟩

theorem grp_loop_spec (fnopts : Option FuncOpts) : ∀ (l : List ParamX)
    (ref_param other : Option ParamX),
    grp_loop l fnopts ref_param other
      = (declared_ref fnopts l
          <|> ((ref_param <|> first_self_const l)
            <|> (last_tensor l <|> (other <|> first_special l)))) := by
  intro l
  induction l with
  | nil =>
      intro ref_param other
      cases ref_param <;> cases other <;>
        simp [grp_loop, declared_ref, first_self_const, first_special, last_tensor]
  | cons p rest ih =>
      intro ref_param other
      by_cases hd : get_optional_ref fnopts = some p.pname
      · simp [grp_loop, declared_ref, hd]
      · by_cases ht : effective_core p.ty = "Tensor"
        · have hsp : is_special_param p = false := by
            simp only [is_special_param, ht]
            decide
          have htp : is_tensor_param p = true := by
            simp [is_tensor_param, ht]
          by_cases hsc : (p.pname = "self" || type_is_const p.ty) = true
          · cases ref_param with
            | none =>
                simp [grp_loop, hd, ht, declared_ref, first_self_const, htp, hsc,
                  last_tensor, first_special, hsp, ih]
            | some r =>
                simp [grp_loop, hd, ht, declared_ref, first_self_const, htp, hsc,
                  last_tensor, first_special, hsp, ih]
          · have hsc' : (p.pname = "self" || type_is_const p.ty) = false := by
              cases hh : (p.pname = "self" || type_is_const p.ty)
              · rfl
              · exact absurd hh hsc
            cases ref_param with
            | none =>
                simp [grp_loop, hd, ht, declared_ref, first_self_const, htp, hsc',
                  last_tensor, first_special, hsp, ih]
                try cases last_tensor rest <;> simp
            | some r =>
                simp [grp_loop, hd, ht, declared_ref, first_self_const, htp, hsc',
                  last_tensor, first_special, hsp, ih]
        · have htp : is_tensor_param p = false := by
            simp [is_tensor_param, ht]
          by_cases hsp : is_special_param p = true
          · cases other with
            | none =>
                simp [grp_loop, hd, ht, declared_ref, first_self_const, htp,
                  last_tensor, first_special, hsp, ih]
            | some o =>
                simp [grp_loop, hd, ht, declared_ref, first_self_const, htp,
                  last_tensor, first_special, hsp, ih]
          · have hsp' : is_special_param p = false := by
              cases hh : is_special_param p
              · rfl
              · exact absurd hh hsp
            cases other with
            | none =>
                simp [grp_loop, hd, ht, declared_ref, first_self_const, htp,
                  last_tensor, first_special, hsp', ih]
            | some o =>
                simp [grp_loop, hd, ht, declared_ref, first_self_const, htp,
                  last_tensor, first_special, hsp', ih]

/-- C3 (amended): the code resolves the reference parameter by the
priority: policy-declared name, else first tensor parameter named self
or const-qualified, else the last tensor-typed parameter, else the
first TensorOptions-, TensorList- or Device-typed parameter.  (The
frozen claim placed the special-typed fallback before the last-tensor
fallback; the loop overwrites the fallback with every tensor
parameter, so a tensor parameter beats an earlier special parameter.) -/
theorem c3_reference_param (params : List ParamX) (fnopts : Option FuncOpts) :
    get_reference_param params fnopts = reference_param_amended params fnopts := by
  rw [get_reference_param, grp_loop_spec, reference_param_amended]
  simp

/-- C3 counterexample to the claim as frozen: with a plain tensor
followed by a TensorOptions parameter, the code picks the tensor (last
tensor rule) while the claimed priority picks the TensorOptions
parameter. -/
theorem c3_counterexample :
    get_reference_param exParams3 none ≠ reference_param_claim exParams3 none := by
  intro h
  have h2 := congrArg (Option.map ParamX.pname) h
  revert h2
  decide

/-- C4 (amended): for every function taken by the out-variant strategy
with no explicit template, the generated body calls the suffix-stripped
underlying function on the parameters from position N onward, emits one
update-in-place copy per output element, the i-th from the i-th result
element into the i-th parameter, and returns the first parameter for a
non-tuple return type, or an N-tuple of the first N parameters for a
tuple return type.  (The frozen claim collapsed the one-element tuple
case into the plain case; the code emits a one-tuple constructor call
there, not the bare parameter.) -/
theorem c4_generate_aten_out (rtype : TyX) (rwxtree : PTree)
    (fname sig rwsig : String) (params : List ParamX) (fnopts : FuncOpts)
    (hout : ends_out fname = true) (htm : fnopts.outfn_template = none)
    (hlen : outN rtype ≤ params.length) :
    generate_aten_out rtype rwxtree fname sig rwsig params fnopts
      = generate_aten_out_amendspec rtype rwxtree fname sig rwsig params := by
  unfold generate_aten_out generate_aten_out_amendspec aten_out_body_spec
    out_return_amended outN
  rw [htm]
  by_cases ht : type_core rtype = "std::tuple"
  · simp only [ht, if_pos]
    refine strExt ?_
    simp [strDataApp, List.append_assoc]
  · simp only [ht, if_neg, ite_false]
    refine strExt ?_
    simp [strDataApp, List.append_assoc]

set_option maxRecDepth 4096 in
/-- C4 counterexample to the claim as frozen: with a one-element tuple
return type, N equals one but the code returns a one-tuple constructor
call, not the bare first parameter. -/
theorem c4_counterexample :
    ends_out "foo_out" = true
    ∧ generate_aten_out tyTuple1 (vtreeOf exSig4 exLayout4) "foo_out" "SIG"
        (renderSig exSig4 exLayout4) exParams4 emptyOpts
      ≠ generate_aten_out_claimed tyTuple1 (vtreeOf exSig4 exLayout4) "foo_out"
          "SIG" (renderSig exSig4 exLayout4) exParams4 := by
  decide

set_option maxRecDepth 4096 in
/-- C4 witness: the amended equation at the two-output example from the
spec shape. -/
theorem c4_witness :
    ends_out "topk_out" = true ∧ (emptyOpts.outfn_template = none)
    ∧ outN tyTuple1 ≤ exParams4.length
    ∧ generate_aten_out tyTuple1 (vtreeOf exSig4 exLayout4) "topk_out" "SIG"
        (renderSig exSig4 exLayout4) exParams4 emptyOpts
      = generate_aten_out_amendspec tyTuple1 (vtreeOf exSig4 exLayout4)
          "topk_out" "SIG" (renderSig exSig4 exLayout4) exParams4 :=
  ⟨by decide, rfl, by decide,
    c4_generate_aten_out tyTuple1 (vtreeOf exSig4 exLayout4) "topk_out" "SIG"
      (renderSig exSig4 exLayout4) exParams4 emptyOpts (by decide) rfl (by decide)⟩

theorem isPrefixL_iff (pat : List Char) : ∀ (l : List Char),
    isPrefixL pat l = true ↔ l.take pat.length = pat := by
  induction pat with
  | nil =>
      intro l
      simp [isPrefixL]
  | cons a as_ ih =>
      intro l
      cases l with
      | nil => simp [isPrefixL]
      | cons b bs =>
          simp only [isPrefixL, Bool.and_eq_true, decide_eq_true_eq,
            List.length_cons, List.take_succ_cons, List.cons.injEq, ih bs]
          constructor
          · intro h
            exact ⟨h.1.symm, h.2⟩
          · intro h
            exact ⟨h.1.symm, h.2⟩

theorem containsSub_iff (pat : List Char) : ∀ (l : List Char),
    containsSub pat l = true ↔ ∃ i, (l.drop i).take pat.length = pat := by
  intro l
  induction l with
  | nil =>
      simp only [containsSub, isPrefixL_iff]
      constructor
      · intro h
        exact ⟨0, h⟩
      · intro ⟨i, h⟩
        simpa [List.drop_nil] using h
  | cons c rest ih =>
      simp only [containsSub, Bool.or_eq_true, isPrefixL_iff, ih]
      constructor
      · intro h
        rcases h with h | ⟨i, h⟩
        · exact ⟨0, h⟩
        · exact ⟨i + 1, h⟩
      · intro ⟨i, h⟩
        cases i with
        | zero => exact Or.inl h
        | succ j => exact Or.inr ⟨j, h⟩

/-- C5 (confirmed): the delegated call is the fully qualified free call
exactly when the literal text space name parenthesis occurs somewhere
in the function-existence source; otherwise it is a member invocation
on the reference parameter with the reference parameter erased from the
argument list and the others passed in order. -/
theorem c5_delegation_target (ctx : Context) (fname xla_ref_param : String)
    (param_vars : List String) (href : xla_ref_param ∈ param_vars) :
    ((∃ i, ((ctx.functions_data.data.drop i).take (" " ++ fname ++ "(").data.length)
        = (" " ++ fname ++ "(").data) →
      get_handling_function ctx fname xla_ref_param param_vars
        = "at::" ++ fname ++ "(" ++ joinSep ", " param_vars ++ ")")
    ∧ ((¬ ∃ i, ((ctx.functions_data.data.drop i).take (" " ++ fname ++ "(").data.length)
        = (" " ++ fname ++ "(").data) →
      get_handling_function ctx fname xla_ref_param param_vars
        = xla_ref_param ++ "." ++ fname ++ "("
          ++ joinSep ", " (param_vars.erase xla_ref_param) ++ ")") := by
  constructor
  · intro h
    have hc : containsSub (" " ++ fname ++ "(").data ctx.functions_data.data = true :=
      (containsSub_iff _ _).mpr h
    simp only [get_handling_function, _XLA_FUNCTIONS, List.lookup,
      Context.get_function, hc, if_true]
  · intro h
    have hc : containsSub (" " ++ fname ++ "(").data ctx.functions_data.data = false := by
      cases hh : containsSub (" " ++ fname ++ "(").data ctx.functions_data.data
      · rfl
      · exact absurd ((containsSub_iff _ _).mp hh) h
    simp only [get_handling_function, _XLA_FUNCTIONS, List.lookup,
      Context.get_function, hc, Bool.false_eq_true, if_false]

/-- C5 witness: both directions at concrete inputs. -/
theorem c5_witness :
    ("self" ∈ ["self", "other"])
    ∧ (∃ i, ((("Tensor at::x(); Tensor add(Tensor);" : String).data.drop i).take
        (" " ++ "add" ++ "(").data.length) = (" " ++ "add" ++ "(").data)
    ∧ get_handling_function ⟨"Tensor at::x(); Tensor add(Tensor);"⟩ "add" "self"
        ["self", "other"]
      = "at::" ++ "add" ++ "(" ++ joinSep ", " ["self", "other"] ++ ")" := by
  refine ⟨by decide, ⟨22, by decide⟩, ?_⟩
  exact (c5_delegation_target ⟨"Tensor at::x(); Tensor add(Tensor);"⟩ "add" "self"
    ["self", "other"] (by decide)).1 ⟨22, by decide⟩

/-- C6 (amended): registration is required exactly when the record has
the dispatch flag without the math flag, or an override exists for the
canonical key, or the raw map signature or the function name is in the
fixed dual-dispatch set.  (The frozen claim tested the canonical
whitespace-stripped key against that set; the code tests the raw map
signature, and the set entries contain spaces.) -/
theorem c6_requires_registration (fgen : FuncGenR) (overrides : List String) :
    requires_registration fgen overrides = true
      ↔ (fgen.dispatch = true ∧ fgen.math = false)
        ∨ get_mapsig_key fgen.mapsig ∈ overrides
        ∨ fgen.mapsig ∈ _FN_AUTOGRAD_XLA ∨ fgen.func ∈ _FN_AUTOGRAD_XLA := by
  simp only [requires_registration, Bool.or_eq_true, Bool.and_eq_true,
    Bool.not_eq_true', List.contains, List.elem_iff]
  constructor
  · intro h
    rcases h with (h | h) | (h | h)
    · exact Or.inl h
    · exact Or.inr (Or.inl h)
    · exact Or.inr (Or.inr (Or.inl h))
    · exact Or.inr (Or.inr (Or.inr h))
  · intro h
    rcases h with h | h | h | h
    · exact Or.inl (Or.inl h)
    · exact Or.inl (Or.inr h)
    · exact Or.inr (Or.inl h)
    · exact Or.inr (Or.inr h)

/-- C6 counterexample to the claim as frozen: for the max_pool2d record
the code requires registration through the raw map signature, while the
canonical key, being space-free, is not in the dual-dispatch set, so
the claimed condition is false. -/
theorem c6_counterexample :
    requires_registration exFgen6 [] = true
    ∧ requires_registration_claimed exFgen6 [] = false := by
  decide

theorem strAssoc (a b c : String) : a ++ b ++ c = a ++ (b ++ c) := by
  refine strExt ?_
  simp [strDataApp, List.append_assoc]

theorem reg_fold (overrides : List String) : ∀ (fgens : List FuncGenR)
    (a g : String) (ov : List String),
    fgens.foldl (reg_step overrides) (a, g, ov)
      = (a ++ strConcat (fgens.map (fun f => aten_contrib f overrides)),
         g ++ strConcat (fgens.map (fun f => ag_contrib f overrides)),
         ov ++ used_keys fgens overrides) := by
  intro fgens
  induction fgens with
  | nil =>
      intro a g ov
      simp [strConcat, used_keys, strAppNil]
  | cons f rest ih =>
      intro a g ov
      show List.foldl (reg_step overrides) (reg_step overrides (a, g, ov) f) rest = _
      by_cases hreq : requires_registration f overrides = true
      · by_cases hov : get_mapsig_key f.mapsig ∈ overrides
        · by_cases hag : f.mapsig ∈ _FN_AUTOGRAD_XLA
          · rw [show reg_step overrides (a, g, ov) f
                = (a, g ++ generate_unboxed f.aten_sig (add_fnptr f.funsig)
                    ("AtenXlaType::" ++ f.func),
                   ov ++ [get_mapsig_key f.mapsig]) by
              simp [reg_step, hreq, hov, hag, List.contains, List.elem_iff]]
            rw [ih]
            simp [aten_contrib, ag_contrib, reg_stmt, bound_impl, used_keys,
              strConcat, hreq, hov, hag, strAssoc, List.append_assoc,
              List.contains, List.elem_iff]
          · rw [show reg_step overrides (a, g, ov) f
                = (a ++ generate_unboxed f.aten_sig (add_fnptr f.funsig)
                    ("AtenXlaType::" ++ f.func), g,
                   ov ++ [get_mapsig_key f.mapsig]) by
              simp [reg_step, hreq, hov, hag, List.contains, List.elem_iff]]
            rw [ih]
            simp [aten_contrib, ag_contrib, reg_stmt, bound_impl, used_keys,
              strConcat, hreq, hov, hag, strAssoc, List.append_assoc,
              List.contains, List.elem_iff]
        · cases hcode : f.code with
          | some body =>
              by_cases hag : f.mapsig ∈ _FN_AUTOGRAD_XLA
              · rw [show reg_step overrides (a, g, ov) f
                    = (a, g ++ generate_unboxed f.aten_sig (add_fnptr f.funsig)
                        f.xfunc, ov) by
                  simp [reg_step, hreq, hov, hcode, hag, List.contains,
                    List.elem_iff]]
                rw [ih]
                simp [aten_contrib, ag_contrib, reg_stmt, bound_impl, used_keys,
                  strConcat, hreq, hov, hcode, hag, strAssoc, List.contains,
                  List.elem_iff]
              · rw [show reg_step overrides (a, g, ov) f
                    = (a ++ generate_unboxed f.aten_sig (add_fnptr f.funsig)
                        f.xfunc, g, ov) by
                  simp [reg_step, hreq, hov, hcode, hag, List.contains,
                    List.elem_iff]]
                rw [ih]
                simp [aten_contrib, ag_contrib, reg_stmt, bound_impl, used_keys,
                  strConcat, hreq, hov, hcode, hag, strAssoc, List.contains,
                  List.elem_iff]
          | none =>
              rw [show reg_step overrides (a, g, ov) f = (a, g, ov) by
                simp [reg_step, hreq, hov, hcode, List.contains, List.elem_iff]]
              rw [ih]
              simp [aten_contrib, ag_contrib, reg_stmt, bound_impl, used_keys,
                strConcat, hreq, hov, hcode, List.contains, List.elem_iff]
      · have hreq' : requires_registration f overrides = false := by
          cases hh : requires_registration f overrides
          · rfl
          · exact absurd hh hreq
        rw [show reg_step overrides (a, g, ov) f = (a, g, ov) by
          simp [reg_step, hreq']]
        rw [ih]
        simp [aten_contrib, ag_contrib, reg_stmt, used_keys, strConcat, hreq']

/-- C7 (confirmed): each required record contributes one impl install
statement bound to the override when the override table holds its
canonical key (and that key is recorded as used), else to the generated
wrapper when a body exists, else nothing; the statement goes to the
dual-dispatch table exactly for map signatures in the fixed set. -/
theorem c7_registrations (fgens : List FuncGenR) (overrides : List String) :
    generate_registrations fgens overrides
      = ("TORCH_LIBRARY_IMPL(aten, XLA, m) \x7b\n"
          ++ strConcat (fgens.map (fun f => aten_contrib f overrides))
          ++ "\n\x7d\n"
          ++ ("TORCH_LIBRARY_IMPL(aten, AutogradXLA, m) \x7b\n"
            ++ strConcat (fgens.map (fun f => ag_contrib f overrides)))
          ++ "\n\x7d\n",
         used_keys fgens overrides) := by
  unfold generate_registrations
  rw [reg_fold]
  simp [strAssoc, List.nil_append]

theorem co_fold (overridden : List String) : ∀ (l : List (String × String))
    (n : Nat) (rep : List String),
    l.foldl (co_step overridden) (n, rep)
      = (n + (l.filter (fun ov => !(overridden.contains (get_mapsig_key ov.1)))).length,
         rep ++ (l.filter (fun ov => !(overridden.contains (get_mapsig_key ov.1)))).map
            (fun ov => reportLine ov.2 ov.1)) := by
  intro l
  induction l with
  | nil => intro n rep; simp
  | cons p rest ih =>
      intro n rep
      rw [List.foldl_cons]
      by_cases hp : get_mapsig_key p.1 ∈ overridden
      · have hc : overridden.contains (get_mapsig_key p.1) = true := by
          simpa [List.contains, List.elem_iff] using hp
        rw [show co_step overridden (n, rep) p = (n, rep) by simp [co_step, hc, hp]]
        rw [ih n rep]
        have hf : List.filter (fun ov => !(overridden.contains (get_mapsig_key ov.1)))
              (p :: rest)
            = List.filter (fun ov => !(overridden.contains (get_mapsig_key ov.1))) rest := by
          rw [List.filter_cons]
          simp [hc, hp]
        rw [hf]
      · have hc : overridden.contains (get_mapsig_key p.1) = false := by
          simp [List.contains, List.elem_iff, hp]
        rw [show co_step overridden (n, rep) p
            = (n + 1, rep ++ [reportLine p.2 p.1]) by simp [co_step, hc, hp]]
        rw [ih]
        have hf : List.filter (fun ov => !(overridden.contains (get_mapsig_key ov.1)))
              (p :: rest)
            = p :: List.filter (fun ov => !(overridden.contains (get_mapsig_key ov.1)))
                rest := by
          rw [List.filter_cons]
          simp [hc, hp]
        rw [hf]
        simp only [Prod.mk.injEq, List.length_cons, List.map_cons]
        constructor
        · omega
        · simp [List.append_assoc]

/-- C8 (confirmed): the validation fails exactly when some override
entry has a canonical key absent from the bound set, and it reports one
line per unused entry. -/
theorem c8_check_overrides (overrides : List (String × String))
    (overridden : List String) :
    ((check_overrides overrides overridden).1 = false
      ↔ ∃ p ∈ overrides, ¬ get_mapsig_key p.1 ∈ overridden)
    ∧ (check_overrides overrides overridden).2
      = (overrides.filter
          (fun ov => !(overridden.contains (get_mapsig_key ov.1)))).map
        (fun ov => reportLine ov.2 ov.1) := by
  unfold check_overrides
  rw [co_fold]
  simp only [Nat.zero_add, List.nil_append]
  refine ⟨?_, trivial⟩
  rw [show ((overrides.filter
        (fun ov => !(overridden.contains (get_mapsig_key ov.1)))).length == 0)
      = decide ((overrides.filter
        (fun ov => !(overridden.contains (get_mapsig_key ov.1)))).length = 0) by
    cases hz : (overrides.filter
        (fun ov => !(overridden.contains (get_mapsig_key ov.1)))).length
    · rfl
    · simp]
  rw [decide_eq_false_iff_not]
  constructor
  · intro h
    obtain ⟨p, hp⟩ := List.exists_mem_of_length_pos (Nat.pos_of_ne_zero h)
    have hmem := List.mem_filter.mp hp
    refine ⟨p, hmem.1, ?_⟩
    have h2 := hmem.2
    simp only [Bool.not_eq_true', List.contains] at h2
    intro hin
    rw [List.elem_iff.mpr hin] at h2
    cases h2
  · intro ⟨p, hp, hnp⟩
    have hmem : p ∈ overrides.filter
        (fun ov => !(overridden.contains (get_mapsig_key ov.1))) := by
      refine List.mem_filter.mpr ⟨hp, ?_⟩
      simp only [Bool.not_eq_true', List.contains]
      cases he : List.elem (get_mapsig_key p.1) overridden
      · rfl
      · exact absurd (List.elem_iff.mp he) hnp
    have hlen := List.length_pos_of_mem hmem
    omega

theorem ef_fold (parses : String → Bool) (errMsg : String → String) :
    ∀ (lines : List (String × List (String × String)))
      (fs : List FuncDefR) (es : List (String × String)),
    lines.foldl (ef_step parses errMsg) (fs, es)
      = (fs ++ (lines.filter (fun l => parses l.1)).map
            (fun l => create_funcdef l.1 l.2),
         es ++ (lines.filter
            (fun l => !(parses l.1) && (is_tensor_api l.1).1)).map
            (fun l => (l.1, errMsg l.1))) := by
  intro lines
  induction lines with
  | nil => intro fs es; simp
  | cons l rest ih =>
      intro fs es
      rw [List.foldl_cons]
      cases hp : parses l.1 with
      | true =>
          rw [show ef_step parses errMsg (fs, es) l
              = (fs ++ [create_funcdef l.1 l.2], es) by simp [ef_step, hp]]
          rw [ih]
          rw [show List.filter (fun l => parses l.1) (l :: rest)
              = l :: List.filter (fun l => parses l.1) rest by
            rw [List.filter_cons]; simp [hp]]
          rw [show List.filter (fun l => !(parses l.1) && (is_tensor_api l.1).1)
                (l :: rest)
              = List.filter (fun l => !(parses l.1) && (is_tensor_api l.1).1)
                rest by
            rw [List.filter_cons]; simp [hp]]
          simp [List.append_assoc]
      | false =>
          cases ht : (is_tensor_api l.1).1 with
          | true =>
              rw [show ef_step parses errMsg (fs, es) l
                  = (fs, es ++ [(l.1, errMsg l.1)]) by simp [ef_step, hp, ht]]
              rw [ih]
              rw [show List.filter (fun l => parses l.1) (l :: rest)
                  = List.filter (fun l => parses l.1) rest by
                rw [List.filter_cons]; simp [hp]]
              rw [show List.filter
                    (fun l => !(parses l.1) && (is_tensor_api l.1).1) (l :: rest)
                  = l :: List.filter
                    (fun l => !(parses l.1) && (is_tensor_api l.1).1) rest by
                rw [List.filter_cons]; simp [hp, ht]]
              simp [List.append_assoc]
          | false =>
              rw [show ef_step parses errMsg (fs, es) l = (fs, es) by
                simp [ef_step, hp, ht]]
              rw [ih]
              rw [show List.filter (fun l => parses l.1) (l :: rest)
                  = List.filter (fun l => parses l.1) rest by
                rw [List.filter_cons]; simp [hp]]
              rw [show List.filter
                    (fun l => !(parses l.1) && (is_tensor_api l.1).1) (l :: rest)
                  = List.filter
                    (fun l => !(parses l.1) && (is_tensor_api l.1).1) rest by
                rw [List.filter_cons]; simp [hp, ht]]

/-- C9 (confirmed): extraction keeps exactly the parsing signatures as
function records; a failing signature lands in the error list exactly
when the rewritten text holds the Tensor word, else it is dropped with
no trace; and the post-extraction abort (assert on the error count)
fires exactly when some failing signature holds the Tensor word. -/
theorem c9_extract_functions (parses : String → Bool)
    (errMsg : String → String)
    (lines : List (String × List (String × String))) :
    extract_functions parses errMsg lines
      = ((lines.filter (fun l => parses l.1)).map
            (fun l => create_funcdef l.1 l.2),
         (lines.filter (fun l => !(parses l.1) && (is_tensor_api l.1).1)).map
            (fun l => (l.1, errMsg l.1)))
    ∧ ((extract_functions parses errMsg lines).2 = []
        ↔ ∀ l ∈ lines, parses l.1 = false → (is_tensor_api l.1).1 = false) := by
  have hmain : extract_functions parses errMsg lines
      = ((lines.filter (fun l => parses l.1)).map
            (fun l => create_funcdef l.1 l.2),
         (lines.filter (fun l => !(parses l.1) && (is_tensor_api l.1).1)).map
            (fun l => (l.1, errMsg l.1))) := by
    unfold extract_functions
    rw [ef_fold]
    simp
  refine ⟨hmain, ?_⟩
  rw [hmain]
  simp only [List.map_eq_nil_iff, List.filter_eq_nil_iff]
  constructor
  · intro h l hl hp
    have := h l hl
    simp only [Bool.and_eq_true, Bool.not_eq_true', not_and] at this
    cases ht : (is_tensor_api l.1).1
    · rfl
    · exact absurd ht (this hp)
  · intro h l hl
    simp only [Bool.and_eq_true, Bool.not_eq_true', not_and]
    intro hp
    rw [h l hl hp]
    simp

/-- C10 (confirmed): a record whose name or map signature matches the
blacklist gets no generated body, yet with its canonical key in the
override table it still requires registration, the emitted statement
binds the override implementation, and the key is recorded as used. -/
theorem c10_blacklist_override (outCode remapCode : FuncOpts → Option String)
    (defaultCode : Option String) (fgen : FuncGenR) (overrides : List String)
    (hcode : fgen.code = get_xla_wrapper_code outCode remapCode defaultCode
      fgen.func fgen.mapsig)
    (hbl : is_blacklisted_fn fgen.func fgen.mapsig = true)
    (hov : get_mapsig_key fgen.mapsig ∈ overrides) :
    fgen.code = none
    ∧ requires_registration fgen overrides = true
    ∧ generate_registrations [fgen] overrides
      = (let stmt := generate_unboxed fgen.aten_sig (add_fnptr fgen.funsig)
           ("AtenXlaType::" ++ fgen.func)
         if _FN_AUTOGRAD_XLA.contains fgen.mapsig
         then ("TORCH_LIBRARY_IMPL(aten, XLA, m) \x7b\n" ++ "\n\x7d\n"
             ++ ("TORCH_LIBRARY_IMPL(aten, AutogradXLA, m) \x7b\n" ++ stmt)
             ++ "\n\x7d\n", [get_mapsig_key fgen.mapsig])
         else (("TORCH_LIBRARY_IMPL(aten, XLA, m) \x7b\n" ++ stmt) ++ "\n\x7d\n"
             ++ "TORCH_LIBRARY_IMPL(aten, AutogradXLA, m) \x7b\n"
             ++ "\n\x7d\n", [get_mapsig_key fgen.mapsig])) := by
  have hcont : overrides.contains (get_mapsig_key fgen.mapsig) = true := by
    simpa [List.contains, List.elem_iff] using hov
  have hreq : requires_registration fgen overrides = true := by
    simp [requires_registration, hov, List.contains, List.elem_iff]
  refine ⟨?_, hreq, ?_⟩
  · rw [hcode]
    simp [get_xla_wrapper_code, hbl]
  · unfold generate_registrations
    rw [show List.foldl (reg_step overrides)
        ("TORCH_LIBRARY_IMPL(aten, XLA, m) \x7b\n",
         "TORCH_LIBRARY_IMPL(aten, AutogradXLA, m) \x7b\n", []) [fgen]
        = reg_step overrides ("TORCH_LIBRARY_IMPL(aten, XLA, m) \x7b\n",
            "TORCH_LIBRARY_IMPL(aten, AutogradXLA, m) \x7b\n", []) fgen from rfl]
    by_cases hag : fgen.mapsig ∈ _FN_AUTOGRAD_XLA
    · have hagc : _FN_AUTOGRAD_XLA.contains fgen.mapsig = true := by
        simpa [List.contains, List.elem_iff] using hag
      rw [show reg_step overrides ("TORCH_LIBRARY_IMPL(aten, XLA, m) \x7b\n",
            "TORCH_LIBRARY_IMPL(aten, AutogradXLA, m) \x7b\n", []) fgen
          = ("TORCH_LIBRARY_IMPL(aten, XLA, m) \x7b\n",
             "TORCH_LIBRARY_IMPL(aten, AutogradXLA, m) \x7b\n"
               ++ generate_unboxed fgen.aten_sig (add_fnptr fgen.funsig)
                 ("AtenXlaType::" ++ fgen.func),
             [get_mapsig_key fgen.mapsig]) by
        simp [reg_step, hreq, hov, hag, List.contains, List.elem_iff]]
      rw [hagc]
      rfl
    · have hagc : _FN_AUTOGRAD_XLA.contains fgen.mapsig = false := by
        simp [List.contains, List.elem_iff, hag]
      rw [show reg_step overrides ("TORCH_LIBRARY_IMPL(aten, XLA, m) \x7b\n",
            "TORCH_LIBRARY_IMPL(aten, AutogradXLA, m) \x7b\n", []) fgen
          = ("TORCH_LIBRARY_IMPL(aten, XLA, m) \x7b\n"
               ++ generate_unboxed fgen.aten_sig (add_fnptr fgen.funsig)
                 ("AtenXlaType::" ++ fgen.func),
             "TORCH_LIBRARY_IMPL(aten, AutogradXLA, m) \x7b\n",
             [get_mapsig_key fgen.mapsig]) by
        simp [reg_step, hreq, hov, hag, List.contains, List.elem_iff]]
      rw [hagc]
      rfl

/-- Witness for C10 at a concrete cudnn record with its key overridden. -/
theorem c10_witness :
    exFgen10.code = none
    ∧ requires_registration exFgen10 ov10 = true
    ∧ generate_registrations [exFgen10] ov10
      = (let stmt := generate_unboxed exFgen10.aten_sig (add_fnptr exFgen10.funsig)
           ("AtenXlaType::" ++ exFgen10.func)
         if _FN_AUTOGRAD_XLA.contains exFgen10.mapsig
         then ("TORCH_LIBRARY_IMPL(aten, XLA, m) \x7b\n" ++ "\n\x7d\n"
             ++ ("TORCH_LIBRARY_IMPL(aten, AutogradXLA, m) \x7b\n" ++ stmt)
             ++ "\n\x7d\n", [get_mapsig_key exFgen10.mapsig])
         else (("TORCH_LIBRARY_IMPL(aten, XLA, m) \x7b\n" ++ stmt) ++ "\n\x7d\n"
             ++ "TORCH_LIBRARY_IMPL(aten, AutogradXLA, m) \x7b\n"
             ++ "\n\x7d\n", [get_mapsig_key exFgen10.mapsig])) :=
  c10_blacklist_override (fun _ => none) (fun _ => none) none exFgen10 ov10
    rfl (by decide) (by decide)

end Gen

